import Mathlib

/-!
Verification of the QualAI analytic core (coding engine, theme engine,
theory engine) against its natural-language specification.

The TypeScript source is shallowly embedded: JS strings are Lean `String`s
(lengths are counted in characters, which agrees with JS code-unit lengths on
the ASCII data handled here), JS `number` frequencies are `Int`, fractional
arithmetic (similarity ratios, prevalence, centrality, completeness) is exact
`ℚ`, JS `Map`s are insertion-ordered association lists, and the one fallible
operation (`buildGroundedTheory`) returns `Except String _`.
-/

namespace QualAI

/- Batteries marks the `Rat` arithmetic operations `@[irreducible]`; restore
the default reducibility inside this file so that concrete rational
computations can be settled by `decide`/`rfl`. -/
attribute [local semireducible] Rat.add Rat.sub Rat.mul Rat.inv

/-! ## String preliminaries (JS string operations) -/

/-- Separator class of the JS regex `[-_\s]+` used to split code names. -/
def isSepChar (c : Char) : Bool :=
  c == '-' || c == '_' || c.isWhitespace

/-- Boolean list-prefix test (used to implement substring search). -/
def leadsWith : List Char → List Char → Bool
  | [], _ => true
  | _ :: _, [] => false
  | p :: ps, c :: cs => p == c && leadsWith ps cs

/-- Boolean contiguous-substring test on char lists: JS `String.includes`. -/
def containsSub (pat : List Char) : List Char → Bool
  | [] => pat.isEmpty
  | c :: cs => leadsWith pat (c :: cs) || containsSub pat cs

/-- JS `haystack.includes(needle)`. -/
def containsStr (haystack needle : String) : Bool :=
  containsSub needle.data haystack.data

/-- JS `String.prototype.toLowerCase` (ASCII case mapping). -/
def toLowerStr (s : String) : String :=
  ⟨s.data.map Char.toLower⟩

/-- JS `String.prototype.endsWith`. -/
def endsWithStr (s suffix : String) : Bool :=
  leadsWith suffix.data.reverse s.data.reverse

/-- JS `String.prototype.trim`: strip whitespace from both ends. -/
def trimStr (s : String) : String :=
  ⟨((s.data.dropWhile Char.isWhitespace).reverse.dropWhile Char.isWhitespace).reverse⟩

/-- State machine core of JS `.replace(/\s+/g, '-')`: the flag records being
inside a whitespace run whose `-` has already been emitted. -/
def collapseWsAux : List Char → Bool → List Char
  | [], _ => []
  | c :: cs, false =>
    if c.isWhitespace then '-' :: collapseWsAux cs true
    else c :: collapseWsAux cs false
  | c :: cs, true =>
    if c.isWhitespace then collapseWsAux cs true
    else c :: collapseWsAux cs false

/-- JS `.replace(/\s+/g, '-')`: collapse each maximal whitespace run to `-`. -/
def collapseWs (l : List Char) : List Char :=
  collapseWsAux l false

/-- JS slug construction `s.toLowerCase().replace(/\s+/g, '-')`. -/
def slugify (s : String) : String :=
  ⟨collapseWs (toLowerStr s).data⟩

/-- JS `w.charAt(0).toUpperCase() + w.slice(1)`. -/
def capitalizeStr (s : String) : String :=
  match s.data with
  | [] => ""
  | c :: cs => ⟨c.toUpper :: cs⟩

/-- State machine core of JS `s.split(/[-_\s]+/)`: `some acc` is the current
token being collected (reversed), `none` means inside a separator run whose
token has already been emitted. -/
def splitSepsAux : List Char → Option (List Char) → List (List Char)
  | [], some acc => [acc.reverse]
  | [], none => [[]]
  | c :: cs, some acc =>
    if isSepChar c then acc.reverse :: splitSepsAux cs none
    else splitSepsAux cs (some (c :: acc))
  | c :: cs, none =>
    if isSepChar c then splitSepsAux cs none
    else splitSepsAux cs (some [c])

/-- Character-list core of JS `s.split(/[-_\s]+/)`: tokens are the stretches
between maximal separator runs, with empty tokens at the two ends when the
string starts or ends with a separator, and `[""]` on `""`. -/
def splitSepsList (l : List Char) : List (List Char) :=
  splitSepsAux l (some [])

/-- JS `name.split(/[-_\s]+/)`. -/
def splitTokens (s : String) : List String :=
  (splitSepsList s.data).map (fun cs => ⟨cs⟩)

/-! ## Insertion-ordered association lists (JS `Map`) -/

/-- JS `Map.prototype.set`: update an existing key in place, otherwise append
at the end (JS maps iterate in insertion order). -/
def mapSet {α : Type} (m : List (String × α)) (k : String) (v : α) :
    List (String × α) :=
  match m with
  | [] => [(k, v)]
  | (k1, v1) :: rest =>
    if k1 == k then (k, v) :: rest else (k1, v1) :: mapSet rest k v

/-- JS `Map.prototype.get` (as an `Option`). -/
def mapGet {α : Type} (m : List (String × α)) (k : String) : Option α :=
  (m.find? (fun p => p.1 == k)).map (·.2)

/-! ## Stable sorting (JS `Array.prototype.sort` with a comparator)

JS `sort` is stable.  `insStable bf x l` inserts `x` after every element `y`
of the sorted prefix for which `bf y x` holds, so `sortStable bf` computes the
stable sort whose sorted order keeps `y` before `x` whenever `bf y x`. -/

/-- Stable insertion used by `sortStable`. -/
def insStable {α : Type} (bf : α → α → Bool) (x : α) : List α → List α
  | [] => [x]
  | y :: ys => if bf y x then y :: insStable bf x ys else x :: y :: ys

/-- Stable sort by insertion, processing elements left to right. -/
def sortStable {α : Type} (bf : α → α → Bool) (l : List α) : List α :=
  l.foldl (fun acc x => insStable bf x acc) []

/-! ## Data model: `Code` (coding-engine.ts) -/

/-- Code type tag: `'in_vivo' | 'constructed' | 'theoretical'`. -/
inductive CodeType where
  | in_vivo
  | constructed
  | theoretical
deriving DecidableEq, Repr

/-- The `Code` record of coding-engine.ts.  `frequency` is a JS number used as
an integer counter, embedded as `Int`. -/
structure Code where
  name : String
  definition : String
  examples : List String
  frequency : Int
  type : CodeType
deriving DecidableEq, Repr

/-- Stand-in value for JS `groupCodes[0]` reads; the groups built by
`buildGroups` are never empty, so it is never actually produced. -/
def defaultCode : Code :=
  { name := "", definition := "", examples := [], frequency := 0,
    type := CodeType.constructed }

/-! ## Similarity grouping (shared loop shape of `refineCodebook` and
`groupCodesBySimilarity`)

Both engines accumulate a `Map<string, Code[]>`: each incoming code joins the
first existing group whose *first member* it is similar to, else it starts a
new group keyed by its own name.  The loop is identical in coding-engine.ts
and theme-engine.ts up to the similarity test, which is passed as `sim`. -/

/-- One `for (const [groupKey, groupCodes] of groups.entries())` scan with
`break`: push `c` into the first group whose first member is similar. -/
def pushToFirstSimilar (sim : Code → Code → Bool) (c : Code) :
    List (String × List Code) → Option (List (String × List Code))
  | [] => none
  | (k, g) :: rest =>
    if sim c (g.headD defaultCode) then some ((k, g ++ [c]) :: rest)
    else
      match pushToFirstSimilar sim c rest with
      | some restNew => some ((k, g) :: restNew)
      | none => none

/-- Body of the grouping loop for a single code. -/
def addCodeToGroups (sim : Code → Code → Bool)
    (groups : List (String × List Code)) (c : Code) :
    List (String × List Code) :=
  match pushToFirstSimilar sim c groups with
  | some groupsNew => groupsNew
  | none => mapSet groups c.name [c]

/-- The grouping loop over all codes. -/
def buildGroups (sim : Code → Code → Bool) (codes : List Code) :
    List (String × List Code) :=
  codes.foldl (addCodeToGroups sim) []

namespace CodingEngine

/-- coding-engine.ts `codesAreSimilar`: token overlap ratio strictly above
0.5, where the denominator is the larger token count. -/
def codesAreSimilar (code1 code2 : Code) : Bool :=
  let words1 := splitTokens code1.name
  let words2 := splitTokens code2.name
  let commonWords := words1.filter (fun w => words2.contains w)
  decide
    ((commonWords.length : ℚ) / ((max words1.length words2.length : ℕ) : ℚ)
      > 1 / 2)

/-- coding-engine.ts `selectBestCodeName`: stable sort by name length
ascending, take the first (shortest, earliest on ties). -/
def selectBestCodeName (codes : List Code) : String :=
  ((sortStable (fun a b => a.name.data.length ≤ b.name.data.length)
      codes).headD defaultCode).name

/-- One entry of `refineCodebook`'s `merges` output (the source fields `from` and `to`
are spelled `from_` and `to_` here; both words are reserved in Lean). -/
structure MergeRecord where
  from_ : List String
  to_ : String
  reason : String
deriving DecidableEq, Repr

/-- Return type of `refineCodebook`. -/
structure RefineResult where
  refined : List Code
  merges : List MergeRecord
deriving DecidableEq, Repr

/-- Merge of one multi-member group inside `refineCodebook`. -/
def mergeGroup (g : List Code) : Code :=
  { name := selectBestCodeName g
    definition := (g.headD defaultCode).definition
    examples := (g.flatMap (·.examples)).take 5
    frequency := g.foldl (fun sum c => sum + c.frequency) 0
    type := (g.headD defaultCode).type }

/-- coding-engine.ts `refineCodebook`: group similar codes, merge each
multi-member group into one code (recording the merge), pass singletons
through. -/
def refineCodebook (codes : List Code) : RefineResult :=
  let groups := buildGroups codesAreSimilar codes
  { refined := groups.map (fun kg =>
      if kg.2.length > 1 then mergeGroup kg.2 else kg.2.headD defaultCode)
    merges := (groups.filter (fun kg => decide (kg.2.length > 1))).map (fun kg =>
      { from_ := kg.2.map (·.name), to_ := (mergeGroup kg.2).name,
        reason := "Similar semantic meaning" }) }

end CodingEngine

/-! ## Theme engine (theme-engine.ts) -/

namespace ThemeEngine

/-- The recursive `Theme` record of theme-engine.ts.  `subThemes` is the
optional field `subThemes?: Theme[]`. -/
inductive Theme where
  | mk (name : String) (description : String) (supportingCodes : List String)
      (prevalence : ℚ) (examples : List String)
      (subThemes : Option (List Theme))

/-- Field accessor for `Theme.name`. -/
def Theme.name : Theme → String
  | .mk n _ _ _ _ _ => n

/-- Field accessor for `Theme.description`. -/
def Theme.description : Theme → String
  | .mk _ d _ _ _ _ => d

/-- Field accessor for `Theme.supportingCodes`. -/
def Theme.supportingCodes : Theme → List String
  | .mk _ _ s _ _ _ => s

/-- Field accessor for `Theme.prevalence`. -/
def Theme.prevalence : Theme → ℚ
  | .mk _ _ _ p _ _ => p

/-- Field accessor for `Theme.examples`. -/
def Theme.examples : Theme → List String
  | .mk _ _ _ _ e _ => e

/-- Field accessor for `Theme.subThemes`. -/
def Theme.subThemes : Theme → Option (List Theme)
  | .mk _ _ _ _ _ s => s

/-- theme-engine.ts `codesAreSimilar`: same overlap ratio as the coding
engine's, but with the lower threshold 0.3. -/
def codesAreSimilar (code1 code2 : Code) : Bool :=
  let words1 := splitTokens code1.name
  let words2 := splitTokens code2.name
  let commonWords := words1.filter (fun w => words2.contains w)
  decide
    ((commonWords.length : ℚ) / ((max words1.length words2.length : ℕ) : ℚ)
      > 3 / 10)

/-- theme-engine.ts `groupCodesBySimilarity` (the shared grouping loop at
threshold 0.3). -/
def groupCodesBySimilarity (codes : List Code) : List (String × List Code) :=
  buildGroups codesAreSimilar codes

/-- JS `codes.reduce((sum, c) => sum + c.frequency, 0)`. -/
def sumFrequency (codes : List Code) : Int :=
  codes.foldl (fun sum c => sum + c.frequency) 0

/-- theme-engine.ts `calculatePrevalence`: theme frequency mass over total
frequency mass, 0 when the total is not positive. -/
def calculatePrevalence (themeCodes allCodes : List Code) : ℚ :=
  let themeFrequency := sumFrequency themeCodes
  let totalFrequency := sumFrequency allCodes
  if totalFrequency > 0 then (themeFrequency : ℚ) / (totalFrequency : ℚ) else 0

/-- theme-engine.ts `generateThemeName`: count name tokens longer than 3
characters, stable-sort by count descending, take the top 3, capitalize and
join with " and ". -/
def generateThemeName (codes : List Code) : String :=
  let wordFreq := codes.foldl
    (fun m code =>
      (splitTokens code.name).foldl
        (fun m2 word =>
          if word.data.length > 3 then
            mapSet m2 word (((mapGet m2 word).getD 0 : Nat) + 1)
          else m2)
        m)
    []
  let topWords :=
    ((sortStable (fun a b => decide (b.2 ≤ a.2)) wordFreq).take 3).map (·.1)
  String.intercalate " and " (topWords.map capitalizeStr)

/-- theme-engine.ts `generateThemeDescription`. -/
def generateThemeDescription (codes : List Code) : String :=
  "This theme encompasses " ++ toString codes.length ++ " related codes: " ++
    String.intercalate ", " (codes.map (·.name)) ++
    ". It represents a pattern of meaning across the data."

/-- theme-engine.ts `identifySubThemes`: re-group the parent theme's codes and
emit one sub-theme per group of size at least 2.  Note the prevalence
denominator is the parameter `codes`, i.e. the parent theme's member codes. -/
def identifySubThemes (codes : List Code) : List Theme :=
  (groupCodesBySimilarity codes).filterMap (fun kg =>
    if kg.2.length ≥ 2 then
      some (Theme.mk (generateThemeName kg.2) (generateThemeDescription kg.2)
        (kg.2.map (·.name)) (calculatePrevalence kg.2 codes)
        ((kg.2.flatMap (·.examples)).take 2) none)
    else none)

/-- theme-engine.ts `inductiveThemeExtraction`: themes from similarity groups
of size at least 2, with sub-themes when `depth === 'deep'` and the group has
more than 5 codes, sorted by prevalence descending. -/
def inductiveThemeExtraction (codes : List Code) (depth : String) : List Theme :=
  let groups := groupCodesBySimilarity codes
  let themes := groups.filterMap (fun kg =>
    if kg.2.length < 2 then none
    else
      some (Theme.mk (generateThemeName kg.2) (generateThemeDescription kg.2)
        (kg.2.map (·.name)) (calculatePrevalence kg.2 codes)
        ((kg.2.flatMap (·.examples)).take 3)
        (if depth == "deep" && kg.2.length > 5 then
          some (identifySubThemes kg.2)
        else none)))
  sortStable (fun a b => decide (b.prevalence ≤ a.prevalence)) themes

/-- The fixed theoretical frameworks of `deductiveThemeExtraction`. -/
def theoreticalFrameworks : List (String × List String) :=
  [("Challenges and Barriers",
    ["difficult", "challenge", "problem", "barrier", "obstacle", "struggle"]),
   ("Strategies and Solutions",
    ["solution", "strategy", "approach", "cope", "manage", "handle"]),
   ("Emotional Experiences",
    ["feel", "emotion", "happy", "sad", "angry", "frustrated", "anxious"]),
   ("Relationships and Interactions",
    ["relationship", "interaction", "connection", "communication", "support"]),
   ("Identity and Self-Concept",
    ["identity", "self", "who", "personal", "individual"])]

/-- The per-code keyword test of `deductiveThemeExtraction`: the keyword is
checked against `code.name` as-is and against `code.definition.toLowerCase()`. -/
def matchesFramework (keywords : List String) (code : Code) : Bool :=
  keywords.any (fun keyword =>
    containsStr code.name keyword ||
      containsStr (toLowerStr code.definition) keyword)

/-- theme-engine.ts `deductiveThemeExtraction`: one theme per framework with a
non-empty match set, sorted by prevalence descending. -/
def deductiveThemeExtraction (codes : List Code) (_depth : String) : List Theme :=
  let themes := theoreticalFrameworks.filterMap (fun framework =>
    let matchingCodes := codes.filter (matchesFramework framework.2)
    if matchingCodes.length > 0 then
      some (Theme.mk framework.1
        "Theme identified through deductive analysis based on theoretical framework"
        (matchingCodes.map (·.name)) (calculatePrevalence matchingCodes codes)
        ((matchingCodes.flatMap (·.examples)).take 3) none)
    else none)
  sortStable (fun a b => decide (b.prevalence ≤ a.prevalence)) themes

/-- Extraction mode: `'inductive' | 'deductive'`. -/
inductive ThemeMode where
  | inductiveMode
  | deductiveMode
deriving DecidableEq, Repr

/-- theme-engine.ts `extractThemes`. -/
def extractThemes (codes : List Code) (mode : ThemeMode) (depth : String) :
    List Theme :=
  match mode with
  | ThemeMode.inductiveMode => inductiveThemeExtraction codes depth
  | ThemeMode.deductiveMode => deductiveThemeExtraction codes depth

/-- Saturation level tag: `'code' | 'theme' | 'theoretical'`. -/
inductive SaturationLevel where
  | code
  | theme
  | theoretical
deriving DecidableEq, Repr

/-- JS template interpolation of the level tag. -/
def SaturationLevel.asString : SaturationLevel → String
  | SaturationLevel.code => "code"
  | SaturationLevel.theme => "theme"
  | SaturationLevel.theoretical => "theoretical"

/-- theme-engine.ts `SaturationAnalysis`.  `saturationRate` is an `Option`:
`none` embeds the IEEE `NaN` the source computes on an empty source map
(mean of an empty slice is `0/0`); `some r` is the exact rational rate. -/
structure SaturationAnalysis where
  level : SaturationLevel
  saturated : Bool
  saturationRate : Option ℚ
  newCodesPerSource : List Nat
  recommendation : String
deriving DecidableEq, Repr

/-- theme-engine.ts `detectSaturation`.  `codesBySource` is the entry list of
the supplied `Map` in its iteration (insertion) order. -/
def detectSaturation (level : SaturationLevel)
    (codesBySource : List (String × List Code)) : SaturationAnalysis :=
  let scan := codesBySource.foldl
    (fun (acc : List Nat × List String) src =>
      let sourceCodes := src.2
      let newCodes := sourceCodes.filter (fun c => !(acc.2.contains c.name))
      (acc.1 ++ [newCodes.length], acc.2 ++ newCodes.map (·.name)))
    ([], [])
  let newCodesPerSource := scan.1
  let recentSources := newCodesPerSource.drop (newCodesPerSource.length - 3)
  let saturationRate : Option ℚ :=
    match recentSources with
    | [] => none
    | _ =>
      some (1 - min (((recentSources.sum : ℚ) / (recentSources.length : ℚ)) / 5) 1)
  let saturated :=
    match saturationRate with
    | none => false
    | some r => decide (r > 85 / 100)
  let recommendation :=
    if saturated then
      "Saturation achieved at " ++ level.asString ++
        " level. You likely have enough data."
    else if
        (match saturationRate with
         | none => false
         | some r => decide (r > 7 / 10)) then
      "Approaching saturation. 2-3 more data sources recommended."
    else "Not yet saturated. Continue data collection for robust findings."
  { level := level, saturated := saturated, saturationRate := saturationRate,
    newCodesPerSource := newCodesPerSource, recommendation := recommendation }

/-- Strength tag `'weak' | 'moderate' | 'strong'` (also the threshold type of
`findNegativeCases`). -/
inductive Strength where
  | weak
  | moderate
  | strong
deriving DecidableEq, Repr

/-- One entry of the `negativeCases` output of `findNegativeCases`. -/
structure NegativeCase where
  code : String
  contradiction : String
  strength : Strength
deriving DecidableEq, Repr

/-- The fixed opposition lexicon of `detectContradiction`, in source order. -/
def oppositions : List (String × String × Strength) :=
  [("positive", "negative", Strength.strong),
   ("success", "failure", Strength.strong),
   ("easy", "difficult", Strength.moderate),
   ("support", "obstacle", Strength.moderate),
   ("benefit", "cost", Strength.moderate)]

/-- The first-match scan of the opposition list inside `detectContradiction`. -/
def detectContradictionAux (themeName codeName codeDefinition : String) :
    List (String × String × Strength) → Option (String × Strength)
  | [] => none
  | (positive, negative, strength) :: rest =>
    if containsStr themeName positive &&
        (containsStr codeName negative || containsStr codeDefinition negative) then
      some ("Theme emphasizes \"" ++ positive ++ "\" but code suggests \"" ++
        negative ++ "\"", strength)
    else if containsStr themeName negative &&
        (containsStr codeName positive || containsStr codeDefinition positive) then
      some ("Theme emphasizes \"" ++ negative ++ "\" but code suggests \"" ++
        positive ++ "\"", strength)
    else detectContradictionAux themeName codeName codeDefinition rest

/-- theme-engine.ts `detectContradiction` (the theme name is already
lowercased by the caller). -/
def detectContradiction (themeName : String) (code : Code) :
    Option (String × Strength) :=
  detectContradictionAux themeName (toLowerStr code.name)
    (toLowerStr code.definition) oppositions

/-- The pre-threshold `negativeCases` array built by `findNegativeCases`:
every non-supporting code with a detected contradiction, in input order. -/
def collectNegativeCases (theme : Theme) (allCodes : List Code) :
    List NegativeCase :=
  let themeName := toLowerStr theme.name
  allCodes.filterMap (fun code =>
    if theme.supportingCodes.contains code.name then none
    else (detectContradiction themeName code).map (fun r =>
      { code := code.name, contradiction := r.1, strength := r.2 }))

/-- Return type of `findNegativeCases`. -/
structure NegativeCasesResult where
  negativeCases : List NegativeCase
  recommendation : String
deriving DecidableEq, Repr

/-- theme-engine.ts `findNegativeCases`: detect contradictions, filter by the
threshold (weak keeps all, moderate drops weak, strong keeps only strong),
and band the recommendation by the filtered count. -/
def findNegativeCases (theme : Theme) (allCodes : List Code)
    (threshold : Strength) : NegativeCasesResult :=
  let negativeCases := collectNegativeCases theme allCodes
  let filtered := negativeCases.filter (fun nc =>
    match threshold with
    | Strength.weak => true
    | Strength.moderate => nc.strength != Strength.weak
    | Strength.strong => nc.strength == Strength.strong)
  let recommendation :=
    if filtered.length == 0 then
      "No significant negative cases found. Theme appears robust."
    else if filtered.length ≤ 2 then
      toString filtered.length ++
        " negative case(s) found. Consider refining theme definition to account for these exceptions."
    else
      toString filtered.length ++
        " negative cases found. Theme may need significant revision or should be split into multiple themes."
  { negativeCases := filtered, recommendation := recommendation }

end ThemeEngine

/-! ## In-vivo code extraction (coding-engine.ts `extractInVivoCodes`) -/

namespace CodingEngine

/-- State machine core of the JS global regex `/"([^"]+)"/g`: `none` is
outside any quote; `some acc` is inside a quote with the (reversed) body
collected so far.  A closing quote with an empty body is a failed match, and
the engine retries with that quote as a new opener; an unterminated quote at
the end of input yields no match. -/
def findQuotesAux : List Char → Option (List Char) → List (List Char)
  | [], _ => []
  | c :: cs, none =>
    if c == '"' then findQuotesAux cs (some []) else findQuotesAux cs none
  | c :: cs, some acc =>
    if c == '"' then
      if acc.isEmpty then findQuotesAux cs (some [])
      else ('"' :: acc.reverse ++ ['"']) :: findQuotesAux cs none
    else findQuotesAux cs (some (c :: acc))

/-- Matches of the JS global regex `/"([^"]+)"/g`, returned with their
enclosing quote characters, scanning left to right without overlap. -/
def findQuotes (l : List Char) : List (List Char) :=
  findQuotesAux l none

/-- JS `quote.replace(/"/g, '').trim()`. -/
def cleanQuote (q : List Char) : String :=
  trimStr ⟨q.filter (fun c => c != '"')⟩

/-- The in-vivo code built from one accepted quoted phrase. -/
def mkQuoteCode (text : String) (q : List Char) : Code :=
  let cleaned := cleanQuote q
  { name := slugify cleaned
    definition := "In-vivo code: \"" ++ cleaned ++ "\""
    examples := [text]
    frequency := 1
    type := CodeType.in_vivo }

/-- The alternation `(feel|felt|feeling|think|thought|believe|believed)` of
the emotion-pattern regex, in source order. -/
def emotionAlts : List (List Char) :=
  ["feel", "felt", "feeling", "think", "thought", "believe", "believed"].map
    String.data

/-- Case-insensitive list-prefix test (the regex has the `i` flag). -/
def ciLeadsWith : List Char → List Char → Bool
  | [], _ => true
  | _ :: _, [] => false
  | p :: ps, c :: cs => p.toLower == c.toLower && ciLeadsWith ps cs

/-- JS `\w`. -/
def isWordChar (c : Char) : Bool :=
  c.isAlpha || c.isDigit || c == '_'

/-- One attempt of the regex `alt\s+\w+` at the current position, trying the
alternatives in order with backtracking; returns the matched characters (in
original case) and the remainder of the input. -/
def tryEmotionAlt (l : List Char) :
    List (List Char) → Option (List Char × List Char)
  | [] => none
  | alt :: rest =>
    if ciLeadsWith alt l then
      let altChars := l.take alt.length
      let after1 := l.drop alt.length
      let spaces := after1.takeWhile Char.isWhitespace
      let after2 := after1.dropWhile Char.isWhitespace
      let word := after2.takeWhile isWordChar
      if spaces.isEmpty || word.isEmpty then tryEmotionAlt l rest
      else some (altChars ++ spaces ++ word, after2.dropWhile isWordChar)
    else tryEmotionAlt l rest

/-- The scanning loop of JS `text.matchAll(emotionPattern)`: at each position
try the pattern; on success emit a code and continue after the match, else
advance one character.  `pos` tracks the match index used for the example
excerpt `text.substring(index, index + 100)`.  The fuel argument only bounds
the recursion: every step consumes at least one character, so the initial
fuel `text.length` supplied by `scanEmotions` is never exhausted. -/
def scanEmotionsAux (text : String) : Nat → List Char → Nat → List Code
  | 0, _, _ => []
  | _, [], _ => []
  | fuel + 1, c :: cs, pos =>
    match tryEmotionAlt (c :: cs) emotionAlts with
    | some (matched, rem) =>
      let phrase := toLowerStr ⟨matched⟩
      { name := ⟨collapseWs phrase.data⟩
        definition := "Emotional/cognitive expression: " ++ phrase
        examples := [⟨(text.data.drop pos).take 100⟩]
        frequency := 1
        type := CodeType.in_vivo } ::
        scanEmotionsAux text fuel rem (pos + matched.length)
    | none => scanEmotionsAux text fuel cs (pos + 1)

/-- The emotion-phrase half of `extractInVivoCodes`. -/
def scanEmotions (text : String) : List Code :=
  scanEmotionsAux text text.data.length text.data 0

/-- coding-engine.ts `extractInVivoCodes`: quoted phrases whose cleaned length
is strictly between 10 and 50 become in-vivo codes, followed by the
emotion-pattern codes. -/
def extractInVivoCodes (text : String) : List Code :=
  let quoteCodes := (findQuotes text.data).filterMap (fun q =>
    let cleaned := cleanQuote q
    if cleaned.data.length > 10 && cleaned.data.length < 50 then
      some (mkQuoteCode text q)
    else none)
  quoteCodes ++ scanEmotions text

end CodingEngine

/-! ## Theory engine (theory-engine.ts) -/

/-- JS `String.prototype.toUpperCase` (ASCII case mapping). -/
def toUpperStr (s : String) : String :=
  ⟨s.data.map Char.toUpper⟩

namespace TheoryEngine

/-- Paradigm tag: `'constructivist' | 'objectivist'`. -/
inductive Paradigm where
  | constructivist
  | objectivist
deriving DecidableEq, Repr

/-- Relationship type tag of `CoreCategory.relationships`. -/
inductive RelationshipType where
  | causes
  | leads_to
  | influences
  | part_of
  | contradicts
deriving DecidableEq, Repr

/-- theory-engine.ts `Category`.  `dimensions` entries are the
`{property, range}` pairs. -/
structure Category where
  name : String
  description : String
  properties : List String
  dimensions : List (String × String)
  relatedCodes : List String
  relatedCategories : List String
  examples : List String
deriving DecidableEq, Repr

/-- theory-engine.ts `AxialCodingResult`. -/
structure AxialCodingResult where
  phenomenon : String
  causalConditions : List String
  context : List String
  interveningConditions : List String
  actionStrategies : List String
  consequences : List String
deriving DecidableEq, Repr

/-- One entry of `CoreCategory.relationships`. -/
structure CoreRelationship where
  relatedCategory : String
  relationshipType : RelationshipType
  description : String
deriving DecidableEq, Repr

/-- theory-engine.ts `CoreCategory`.  `centrality` is exact rational. -/
structure CoreCategory where
  name : String
  description : String
  centrality : ℚ
  relationships : List CoreRelationship
  theoreticalMemo : String
deriving DecidableEq, Repr

/-- Stage tag of `GroundedTheoryResult`. -/
inductive TheoryStage where
  | open_coding
  | axial_coding
  | selective_coding
  | theory_integration
deriving DecidableEq, Repr

/-- theory-engine.ts `GroundedTheoryResult`. -/
structure GroundedTheoryResult where
  coreCategory : CoreCategory
  supportingCategories : List Category
  theoreticalFramework : String
  storyline : String
  stage : TheoryStage
  completeness : ℚ
  recommendations : List String
deriving DecidableEq, Repr

/-- theory-engine.ts `inferCategoryName`: the ordered lexicon decision list
over the lowercased name and definition, defaulting to the first name token
longer than 3 characters, else `"miscellaneous"`. -/
def inferCategoryName (code : Code) : String :=
  let name := toLowerStr code.name
  let definition := toLowerStr code.definition
  if endsWithStr name "ing" || containsStr definition "process" ||
      containsStr definition "action" || containsStr definition "doing" then
    "processes"
  else if containsStr definition "condition" || containsStr definition "situation" ||
      containsStr definition "context" || containsStr definition "when" ||
      containsStr name "condition" then
    "conditions"
  else if containsStr definition "strategy" || containsStr definition "approach" ||
      containsStr definition "cope" || containsStr definition "manage" ||
      containsStr definition "handle" || containsStr name "strategy" ||
      containsStr name "coping" then
    "strategies"
  else if containsStr definition "emotion" || containsStr definition "feel" ||
      containsStr name "emotion" || containsStr name "feel" then
    "emotions"
  else if containsStr definition "challenge" || containsStr definition "problem" ||
      containsStr definition "difficulty" || containsStr definition "barrier" ||
      containsStr name "challenge" || containsStr name "problem" then
    "challenges"
  else if containsStr definition "outcome" || containsStr definition "result" ||
      containsStr definition "consequence" || containsStr definition "effect" ||
      containsStr name "outcome" || containsStr name "result" then
    "outcomes"
  else if containsStr definition "relationship" || containsStr definition "interaction" ||
      containsStr definition "connection" || containsStr name "relational" then
    "relationships"
  else
    (((splitTokens name).filter (fun w => w.data.length > 3)).headD "miscellaneous")

/-- theory-engine.ts `categoriesAreSimilar`: exact match, plural/singular
variants, or any shared name token. -/
def categoriesAreSimilar (cat1 cat2 : String) : Bool :=
  if cat1 == cat2 then true
  else if cat1 == cat2 ++ "s" || cat2 == cat1 ++ "s" then true
  else if cat1 == cat2 ++ "es" || cat2 == cat1 ++ "es" then true
  else
    let words1 := splitTokens cat1
    let words2 := splitTokens cat2
    decide (0 < (words1.filter (fun w => words2.contains w)).length)

/-- The `for (const [mergedKey, mergedCodes] of merged.entries())` scan with
`break` inside `mergeSimilarCategories`: append the entry's codes to the
first similar merged category. -/
def pushToFirstSimilarCategory (entry : String × List Code) :
    List (String × List Code) → Option (List (String × List Code))
  | [] => none
  | (k, cs) :: rest =>
    if categoriesAreSimilar entry.1 k then some ((k, cs ++ entry.2) :: rest)
    else
      match pushToFirstSimilarCategory entry rest with
      | some restNew => some ((k, cs) :: restNew)
      | none => none

/-- theory-engine.ts `mergeSimilarCategories`. -/
def mergeSimilarCategories (groups : List (String × List Code)) :
    List (String × List Code) :=
  groups.foldl
    (fun merged entry =>
      match pushToFirstSimilarCategory entry merged with
      | some mergedNew => mergedNew
      | none => mapSet merged entry.1 entry.2)
    []

/-- theory-engine.ts `groupCodesIntoCategories`: bucket codes by inferred
category name, then merge similar categories. -/
def groupCodesIntoCategories (codes : List Code) : List (String × List Code) :=
  let groups := codes.foldl
    (fun groups code =>
      let categoryName := inferCategoryName code
      mapSet groups categoryName (((mapGet groups categoryName).getD []) ++ [code]))
    []
  mergeSimilarCategories groups

/-- theory-engine.ts `isCommonWord`. -/
def isCommonWord (word : String) : Bool :=
  ["the", "and", "for", "with", "from", "that", "this",
   "have", "has", "had", "was", "were", "been", "being"].contains
    (toLowerStr word)

/-- theory-engine.ts `identifyProperties`: up to 5 distinct name tokens longer
than 3 characters that are not common words, in first-seen order. -/
def identifyProperties (codes : List Code) : List String :=
  (codes.foldl
    (fun properties code =>
      (splitTokens code.name).foldl
        (fun props word =>
          if word.data.length > 3 && !isCommonWord word && !props.contains word then
            props ++ [word]
          else props)
        properties)
    []).take 5

/-- theory-engine.ts `inferDimensionalRange`. -/
def inferDimensionalRange (_property : String) (codes : List Code) : String :=
  if codes.any (fun c =>
      let d := toLowerStr c.definition
      containsStr d "low" || containsStr d "high" || containsStr d "strong" ||
        containsStr d "weak" || containsStr d "intense" || containsStr d "mild") then
    "low to high"
  else if codes.any (fun c =>
      let d := toLowerStr c.definition
      containsStr d "often" || containsStr d "sometimes" || containsStr d "rarely" ||
        containsStr d "always" || containsStr d "never") then
    "rarely to frequently"
  else "varies across contexts"

/-- theory-engine.ts `identifyDimensions`. -/
def identifyDimensions (codes : List Code) : List (String × String) :=
  (identifyProperties codes).map (fun property =>
    (property, inferDimensionalRange property codes))

/-- theory-engine.ts `generateCategoryDescription`. -/
def generateCategoryDescription (codes : List Code) (paradigm : Paradigm) :
    String :=
  let pre :=
    match paradigm with
    | Paradigm.constructivist =>
      "This category represents participants\x27 experiences of"
    | Paradigm.objectivist => "This category describes the phenomenon of"
  pre ++ " " ++ String.intercalate ", " (codes.map (·.name)) ++
    ". It emerged from " ++ toString codes.length ++ " codes across the data."

/-- theory-engine.ts `identifyCategories` (stage 1, open coding): one
`Category` per surviving group (groups need at least one code). -/
def identifyCategories (codes : List Code) (paradigm : Paradigm) :
    List Category :=
  (groupCodesIntoCategories codes).filterMap (fun kg =>
    if kg.2.length < 1 then none
    else
      some {
        name := kg.1
        description := generateCategoryDescription kg.2 paradigm
        properties := identifyProperties kg.2
        dimensions := identifyDimensions kg.2
        relatedCodes := kg.2.map (·.name)
        relatedCategories := []
        examples := (kg.2.flatMap (·.examples)).take 3 })

/-- theory-engine.ts `identifyCausalConditions`. -/
def identifyCausalConditions (category : Category)
    (allCategories : List Category) (codes : List Code) : List String :=
  let fromCategories := (allCategories.filter (fun other =>
    other.name != category.name &&
      (containsStr other.name "condition" || containsStr other.name "cause"))).map
    (·.name)
  let causalCodes := codes.filter (fun c =>
    let d := toLowerStr c.definition
    containsStr d "because" || containsStr d "due to" || containsStr d "caused by" ||
      containsStr d "result of" || containsStr d "led to")
  fromCategories ++ (causalCodes.map (·.name)).take 3

/-- theory-engine.ts `identifyContext` (note: no self-exclusion). -/
def identifyContext (_category : Category) (allCategories : List Category)
    (codes : List Code) : List String :=
  let fromCategories := (allCategories.filter (fun other =>
    containsStr other.name "context" || containsStr other.name "situation")).map
    (·.name)
  let contextCodes := codes.filter (fun c =>
    let d := toLowerStr c.definition
    containsStr d "when" || containsStr d "where" || containsStr d "situation" ||
      containsStr d "context" || containsStr d "environment")
  fromCategories ++ (contextCodes.map (·.name)).take 3

/-- theory-engine.ts `identifyInterveningConditions`. -/
def identifyInterveningConditions (category : Category)
    (allCategories : List Category) : List String :=
  (allCategories.filter (fun other =>
    other.name != category.name &&
      (containsStr other.name "factor" || containsStr other.name "influence" ||
        containsStr other.name "barrier"))).map (·.name)

/-- theory-engine.ts `identifyActionStrategies` (note: no self-exclusion). -/
def identifyActionStrategies (_category : Category)
    (allCategories : List Category) : List String :=
  (allCategories.filter (fun other =>
    containsStr other.name "strategy" || containsStr other.name "coping" ||
      containsStr other.name "approach" || containsStr other.name "process")).map
    (·.name)

/-- theory-engine.ts `identifyConsequences` (note: no self-exclusion). -/
def identifyConsequences (_category : Category)
    (allCategories : List Category) (codes : List Code) : List String :=
  let fromCategories := (allCategories.filter (fun other =>
    containsStr other.name "outcome" || containsStr other.name "result" ||
      containsStr other.name "consequence" || containsStr other.name "effect")).map
    (·.name)
  let outcomeCodes := codes.filter (fun c =>
    let d := toLowerStr c.definition
    containsStr d "result" || containsStr d "outcome" || containsStr d "led to" ||
      containsStr d "caused" || containsStr d "effect")
  fromCategories ++ (outcomeCodes.map (·.name)).take 3

/-- theory-engine.ts `analyzeParadigmModel`.  The source declares the return
type nullable but always returns a record, so it is embedded total. -/
def analyzeParadigmModel (category : Category) (allCategories : List Category)
    (codes : List Code) : AxialCodingResult :=
  { phenomenon := category.name
    causalConditions := identifyCausalConditions category allCategories codes
    context := identifyContext category allCategories codes
    interveningConditions := identifyInterveningConditions category allCategories
    actionStrategies := identifyActionStrategies category allCategories
    consequences := identifyConsequences category allCategories codes }

/-- theory-engine.ts `performAxialCoding` (stage 2): one paradigm-model
analysis per category. -/
def performAxialCoding (categories : List Category) (codes : List Code) :
    List AxialCodingResult :=
  categories.map (fun category => analyzeParadigmModel category categories codes)

/-- The per-category centrality score inside `identifyCoreCategory`:
`|relatedCodes| + 2·|causal| + 2·|consequences| + 1.5·|strategies| +
|context| + |intervening|`. -/
def categoryScore (category : Category)
    (axialResults : List AxialCodingResult) : ℚ :=
  let base : ℚ := (category.relatedCodes.length : ℚ)
  match axialResults.find? (fun ar => ar.phenomenon == category.name) with
  | some connections =>
    base + 2 * (connections.causalConditions.length : ℚ) +
      2 * (connections.consequences.length : ℚ) +
      (3 / 2) * (connections.actionStrategies.length : ℚ) +
      (connections.context.length : ℚ) +
      (connections.interveningConditions.length : ℚ)
  | none => base

/-- theory-engine.ts `generateTheoreticalMemo`. -/
def generateTheoreticalMemo (category : Category)
    (axialResult : Option AxialCodingResult) (researchQuestion : String) :
    String :=
  "THEORETICAL MEMO: " ++ toUpperStr category.name ++ "\n\n" ++
    "Research Question: " ++ researchQuestion ++ "\n\n" ++
    "The core category \"" ++ category.name ++
    "\" emerged as the central phenomenon organizing this grounded theory. " ++
    (match axialResult with
     | none => ""
     | some ar =>
       (if 0 < ar.causalConditions.length then
         "It appears to be caused or influenced by: " ++
           String.intercalate ", " ar.causalConditions ++ ". "
       else "") ++
       (if 0 < ar.context.length then
         "This occurs within the context of: " ++
           String.intercalate ", " ar.context ++ ". "
       else "") ++
       (if 0 < ar.actionStrategies.length then
         "Participants respond through strategies such as: " ++
           String.intercalate ", " ar.actionStrategies ++ ". "
       else "") ++
       (if 0 < ar.consequences.length then
         "The consequences include: " ++
           String.intercalate ", " ar.consequences ++ ". "
       else "")) ++
    "\n\nThis category integrates " ++ toString category.relatedCodes.length ++
    " codes and provides a theoretical explanation for the phenomenon under study."

/-- The no-categories failure message of `identifyCoreCategory`. -/
def noCategoriesMessage : String :=
  "No categories found. Please ensure your codes can form at least one category."

/-- theory-engine.ts `identifyCoreCategory` (stage 3, selective coding).
Throws (as `Except.error`) when the score list is empty or the top-scoring
name is not among the categories. -/
def identifyCoreCategory (categories : List Category)
    (axialResults : List AxialCodingResult) (researchQuestion : String) :
    Except String CoreCategory :=
  let categoryScores := categories.foldl
    (fun m category => mapSet m category.name (categoryScore category axialResults))
    []
  let sorted := sortStable (fun a b => decide (b.2 ≤ a.2)) categoryScores
  match sorted with
  | [] => Except.error noCategoriesMessage
  | (coreName, coreScore) :: _ =>
    match categories.find? (fun c => c.name == coreName) with
    | none =>
      Except.error ("Core category \"" ++ coreName ++
        "\" not found in categories list.")
    | some coreCategory =>
      let coreAxial := axialResults.find? (fun ar => ar.phenomenon == coreName)
      let relationships : List CoreRelationship :=
        match coreAxial with
        | none => []
        | some ca =>
          ca.causalConditions.map (fun cause =>
            { relatedCategory := cause
              relationshipType := RelationshipType.causes
              description :=
                cause ++ " contributes to the emergence of " ++ coreName }) ++
          ca.consequences.map (fun consequence =>
            { relatedCategory := consequence
              relationshipType := RelationshipType.leads_to
              description := coreName ++ " results in " ++ consequence }) ++
          ca.actionStrategies.map (fun strategy =>
            { relatedCategory := strategy
              relationshipType := RelationshipType.influences
              description := coreName ++ " is managed through " ++ strategy })
      let theoreticalMemo :=
        generateTheoreticalMemo coreCategory coreAxial researchQuestion
      let totalScore := (categoryScores.map (·.2)).sum
      let centrality := if totalScore > 0 then coreScore / totalScore else 0
      Except.ok
        { name := coreName
          description := coreCategory.description
          centrality := centrality
          relationships := relationships
          theoreticalMemo := theoreticalMemo }

/-- theory-engine.ts `generateTheoreticalFramework`. -/
def generateTheoreticalFramework (coreCategory : CoreCategory)
    (categories : List Category) (paradigm : Paradigm) : String :=
  let approach :=
    match paradigm with
    | Paradigm.constructivist =>
      "This grounded theory, constructed from participants\x27 lived experiences, "
    | Paradigm.objectivist =>
      "This grounded theory, derived from systematic data analysis, "
  approach ++ "proposes that \"" ++ coreCategory.name ++
    "\" serves as the core organizing concept. " ++
    "\n\nThe theory identifies " ++ toString categories.length ++
    " major categories that interact " ++ "to explain the phenomenon. " ++
    "These categories are: " ++
    String.intercalate ", " (categories.map (·.name)) ++ ". " ++
    "\n\nThe relationships between categories follow this pattern:\n" ++
    String.join (coreCategory.relationships.map (fun rel =>
      "- " ++ rel.description ++ "\n")) ++
    "\nThis theoretical framework provides a substantive explanation of the processes " ++
    "and patterns observed in the data."

/-- theory-engine.ts `generateStoryline`. -/
def generateStoryline (coreCategory : CoreCategory)
    (axialResults : List AxialCodingResult) (researchQuestion : String) :
    String :=
  "GROUNDED THEORY STORYLINE\n\n" ++
    "Addressing the research question \"" ++ researchQuestion ++ "\", " ++
    "this theory explains how " ++ coreCategory.name ++
    " operates as the central process.\n\n" ++
    (match axialResults.find? (fun ar => ar.phenomenon == coreCategory.name) with
     | none => ""
     | some coreAxial =>
       (if 0 < coreAxial.causalConditions.length ∨ 0 < coreAxial.context.length then
         "The process begins when certain conditions are present. " ++
           (if 0 < coreAxial.causalConditions.length then
             "Causal factors include " ++
               String.intercalate ", " coreAxial.causalConditions ++ ". "
           else "") ++
           (if 0 < coreAxial.context.length then
             "This occurs within contexts characterized by " ++
               String.intercalate ", " coreAxial.context ++ ". "
           else "") ++ "\n\n"
       else "") ++
       (if 0 < coreAxial.actionStrategies.length then
         "In response to these conditions, participants engage in various strategies. " ++
           "Key approaches include " ++
           String.intercalate ", " coreAxial.actionStrategies ++ ". " ++
           (if 0 < coreAxial.interveningConditions.length then
             "These strategies are shaped by intervening factors such as " ++
               String.intercalate ", " coreAxial.interveningConditions ++ ". "
           else "") ++ "\n\n"
       else "") ++
       (if 0 < coreAxial.consequences.length then
         "The outcomes of this process include " ++
           String.intercalate ", " coreAxial.consequences ++ ". " ++
           "These consequences may, in turn, influence future iterations of the process, " ++
           "creating a dynamic and evolving pattern.\n\n"
       else "")) ++
    "This integrated storyline demonstrates how the categories work together " ++
    "to form a coherent theoretical explanation."

/-- theory-engine.ts `assessTheoryCompleteness`.  The `if (coreCategory)`
guard always holds (the argument is a record), so its 20 points are
unconditional. -/
def assessTheoryCompleteness (coreCategory : CoreCategory)
    (categories : List Category) (axialResults : List AxialCodingResult) : ℚ :=
  let score : ℚ :=
    20 + min ((categories.length : ℚ) * 4) 20 +
      min ((coreCategory.relationships.length : ℚ) * 5) 20 +
      min ((axialResults.length : ℚ) * 4) 20 +
      coreCategory.centrality * 20
  min (score / 100) 1

/-- theory-engine.ts `generateRecommendations`: completeness-banded primary
statement, conditional add-ons, and two fixed reminders. -/
def generateRecommendations (completeness : ℚ) (coreCategory : CoreCategory)
    (categories : List Category) : List String :=
  (if completeness < 3 / 5 then
    ["Theory is incomplete. Continue data collection and coding to develop more robust categories."]
  else if completeness < 4 / 5 then
    ["Theory is developing well. Focus on refining relationships between categories."]
  else
    ["Theory is well-developed and ready for validation and refinement."]) ++
  (if coreCategory.relationships.length < 3 then
    ["Consider exploring more relationships between the core category and other categories."]
  else []) ++
  (if categories.length < 5 then
    ["Theory might benefit from identifying additional categories through further analysis."]
  else []) ++
  (if coreCategory.centrality < 1 / 2 then
    ["The identified core category may not be sufficiently central. Consider if another category better integrates the theory."]
  else []) ++
  ["Write detailed theoretical memos to document your analytical decisions.",
   "Consider member checking by sharing preliminary findings with participants."]

/-- theory-engine.ts `integrateTheory` (stage 4). -/
def integrateTheory (coreCategory : CoreCategory) (categories : List Category)
    (axialResults : List AxialCodingResult) (researchQuestion : String)
    (paradigm : Paradigm) : GroundedTheoryResult :=
  let completeness := assessTheoryCompleteness coreCategory categories axialResults
  { coreCategory := coreCategory
    supportingCategories := categories
    theoreticalFramework :=
      generateTheoreticalFramework coreCategory categories paradigm
    storyline := generateStoryline coreCategory axialResults researchQuestion
    stage := TheoryStage.theory_integration
    completeness := completeness
    recommendations := generateRecommendations completeness coreCategory categories }

/-- theory-engine.ts `buildGroundedTheory`: the four ordered sub-stages.  The
`themes` parameter is accepted and ignored, as in the source. -/
def buildGroundedTheory (codes : List Code)
    (_themes : Option (List ThemeEngine.Theme)) (researchQuestion : String)
    (paradigm : Paradigm) : Except String GroundedTheoryResult :=
  let categories := identifyCategories codes paradigm
  let axialResults := performAxialCoding categories codes
  match identifyCoreCategory categories axialResults researchQuestion with
  | Except.error e => Except.error e
  | Except.ok coreCategory =>
    Except.ok (integrateTheory coreCategory categories axialResults
      researchQuestion paradigm)

end TheoryEngine

/-! ## Helper notions used by the verification -/

/-- Total frequency mass of a code list (sum of the `frequency` fields). -/
def sumFreq (codes : List Code) : Int :=
  (codes.map (·.frequency)).sum

/-- Total frequency mass over all groups of a grouping map. -/
def groupsFreq (gs : List (String × List Code)) : Int :=
  (gs.map (fun kg => sumFreq kg.2)).sum

/-- Well-formedness of a grouping map: every group is non-empty and is keyed
by the name of its first member. -/
def GroupsWF (gs : List (String × List Code)) : Prop :=
  ∀ p ∈ gs, p.2 ≠ [] ∧ (p.2.headD defaultCode).name = p.1

/-- A similarity test that identifies same-named codes (holds for both
engines' `codesAreSimilar`). -/
def SimRefl (sim : Code → Code → Bool) : Prop :=
  ∀ c g0 : Code, g0.name = c.name → sim c g0 = true

/-- Definition following the spec's words, for comparison with the code's
prevalence: "equal to the sum of its supporting codes' frequencies divided by
the total frequency of all input codes (0 when the total is 0)", reading a
theme's supporting codes back from the input list by name. -/
def specPrevalence (t : ThemeEngine.Theme) (allCodes : List Code) : ℚ :=
  ThemeEngine.calculatePrevalence
    (allCodes.filter (fun c => t.supportingCodes.contains c.name)) allCodes

/-- Concrete seven-code input exercising deep inductive theme extraction: six
mutually similar codes (shared token `t`) that form one group large enough to
trigger sub-theme analysis, plus one dissimilar code `zzzz` that makes the
total frequency mass differ from the group's mass. -/
def deepCodesExample : List Code :=
  [{ name := "t-one", definition := "", examples := [], frequency := 1,
     type := CodeType.constructed },
   { name := "t-two", definition := "", examples := [], frequency := 1,
     type := CodeType.constructed },
   { name := "t-three", definition := "", examples := [], frequency := 1,
     type := CodeType.constructed },
   { name := "t-four", definition := "", examples := [], frequency := 1,
     type := CodeType.constructed },
   { name := "t-five", definition := "", examples := [], frequency := 1,
     type := CodeType.constructed },
   { name := "t-six", definition := "", examples := [], frequency := 1,
     type := CodeType.constructed },
   { name := "zzzz", definition := "", examples := [], frequency := 1,
     type := CodeType.constructed }]

/-! # Proofs

Preliminary lemmas about the shared list machinery, then the ten claims. -/

/-- Membership is preserved by stable insertion. -/
theorem mem_insStable {α : Type} (bf : α → α → Bool) (x a : α) (l : List α) :
    a ∈ insStable bf x l ↔ a = x ∨ a ∈ l := by
  induction l with
  | nil => simp [insStable]
  | cons y ys ih =>
    by_cases hb : bf y x
    · simp only [insStable, if_pos hb, List.mem_cons, ih]
      try tauto
    · simp only [insStable, if_neg hb, List.mem_cons]
      try tauto

/-- Membership is preserved by the stable sort. -/
theorem mem_sortStable {α : Type} (bf : α → α → Bool) (l : List α) (a : α) :
    a ∈ sortStable bf l ↔ a ∈ l := by
  have key : ∀ (l2 : List α) (init : List α),
      a ∈ l2.foldl (fun acc x => insStable bf x acc) init ↔
        a ∈ init ∨ a ∈ l2 := by
    intro l2
    induction l2 with
    | nil => simp
    | cons x xs ih =>
      intro init
      rw [List.foldl_cons, ih, mem_insStable]
      simp only [List.mem_cons]
      tauto
  simpa [sortStable] using key l []

/-- Stable insertion adds one element to the length. -/
theorem length_insStable {α : Type} (bf : α → α → Bool) (x : α) (l : List α) :
    (insStable bf x l).length = l.length + 1 := by
  induction l with
  | nil => simp [insStable]
  | cons y ys ih =>
    by_cases hb : bf y x
    · simp only [insStable, if_pos hb, List.length_cons, ih]
    · simp only [insStable, if_neg hb, List.length_cons]

/-- The stable sort preserves length. -/
theorem length_sortStable {α : Type} (bf : α → α → Bool) (l : List α) :
    (sortStable bf l).length = l.length := by
  have key : ∀ (l2 : List α) (init : List α),
      (l2.foldl (fun acc x => insStable bf x acc) init).length =
        init.length + l2.length := by
    intro l2
    induction l2 with
    | nil => simp
    | cons x xs ih =>
      intro init
      rw [List.foldl_cons, ih, length_insStable]
      simp only [List.length_cons]
      omega
  simpa [sortStable] using key l []

/-- `mapSet` with a fresh key appends the new entry. -/
theorem mapSet_of_fresh {α : Type} (m : List (String × α)) (k : String) (v : α)
    (h : ∀ p ∈ m, p.1 ≠ k) : mapSet m k v = m ++ [(k, v)] := by
  induction m with
  | nil => simp [mapSet]
  | cons p rest ih =>
    have hp : p.1 ≠ k := h p (by simp)
    cases p with
    | mk k1 v1 =>
      simp only [mapSet]
      rw [if_neg (by simpa using hp)]
      simp only [List.cons_append, List.cons.injEq, true_and]
      exact ih (fun q hq => h q (by simp [hq]))

/-- `mapSet` grows the map by at most one entry. -/
theorem length_mapSet_le {α : Type} (m : List (String × α)) (k : String)
    (v : α) : (mapSet m k v).length ≤ m.length + 1 := by
  induction m with
  | nil => simp [mapSet]
  | cons p rest ih =>
    cases p with
    | mk k1 v1 =>
      simp only [mapSet]
      by_cases hk : k1 == k
      · rw [if_pos hk]; simp
      · rw [if_neg hk]
        simpa using Nat.succ_le_succ ih

/-- A successful `pushToFirstSimilar` splits the group list around the group
that received the code. -/
theorem pushToFirstSimilar_some_decomp (sim : Code → Code → Bool) (c : Code) :
    ∀ (gs gs2 : List (String × List Code)),
    pushToFirstSimilar sim c gs = some gs2 →
    ∃ pre post k g, gs = pre ++ (k, g) :: post ∧
      gs2 = pre ++ (k, g ++ [c]) :: post ∧
      sim c (g.headD defaultCode) = true := by
  intro gs
  induction gs with
  | nil => intro gs2 h; simp [pushToFirstSimilar] at h
  | cons p rest ih =>
    intro gs2 h
    obtain ⟨k, g⟩ := p
    by_cases hs : sim c (g.headD defaultCode)
    · refine ⟨[], rest, k, g, by simp, ?_, hs⟩
      simp only [pushToFirstSimilar, if_pos hs, Option.some.injEq] at h
      simp [← h]
    · simp only [pushToFirstSimilar, if_neg hs] at h
      cases hrec : pushToFirstSimilar sim c rest with
      | none => rw [hrec] at h; simp at h
      | some restNew =>
        rw [hrec] at h
        simp only [Option.some.injEq] at h
        obtain ⟨pre, post, k2, g2, hgs, hgs2, hsim2⟩ := ih restNew hrec
        refine ⟨(k, g) :: pre, post, k2, g2, by simp [hgs], ?_, hsim2⟩
        rw [← h, hgs2]
        simp

/-- A failed `pushToFirstSimilar` means no group's first member is similar. -/
theorem pushToFirstSimilar_none_iff (sim : Code → Code → Bool) (c : Code) :
    ∀ (gs : List (String × List Code)),
    pushToFirstSimilar sim c gs = none →
    ∀ p ∈ gs, sim c (p.2.headD defaultCode) = false := by
  intro gs
  induction gs with
  | nil => intro _ p hp; simp at hp
  | cons q rest ih =>
    intro h p hp
    obtain ⟨k, g⟩ := q
    by_cases hs : sim c (g.headD defaultCode)
    · simp only [pushToFirstSimilar, if_pos hs] at h
      simp at h
    · simp only [pushToFirstSimilar, if_neg hs] at h
      rcases List.mem_cons.mp hp with hpq | hpr
      · subst hpq; simpa using hs
      · cases hrec : pushToFirstSimilar sim c rest with
        | none => exact ih hrec p hpr
        | some restNew => rw [hrec] at h; simp at h

/-- The split state machine never returns an empty token list. -/
theorem splitSepsAux_ne_nil :
    ∀ (l : List Char) (st : Option (List Char)), splitSepsAux l st ≠ [] := by
  intro l
  induction l with
  | nil => intro st; cases st <;> simp [splitSepsAux]
  | cons c cs ih =>
    intro st
    cases st with
    | some acc =>
      by_cases hc : isSepChar c
      · simp [splitSepsAux, hc]
      · simp only [splitSepsAux, if_neg hc]
        exact ih _
    | none =>
      by_cases hc : isSepChar c
      · simp only [splitSepsAux, if_pos hc]
        exact ih _
      · simp only [splitSepsAux, if_neg hc]
        exact ih _

/-- The token split of a name is never empty. -/
theorem splitSepsList_ne_nil (l : List Char) : splitSepsList l ≠ [] :=
  splitSepsAux_ne_nil l (some [])

/-- The token split of a name is never empty (string version). -/
theorem splitTokens_ne_nil (s : String) : splitTokens s ≠ [] := by
  simp [splitTokens, splitSepsList_ne_nil]

/-- The token-overlap ratio of two same-named codes is 1, hence above any
threshold below 1. -/
theorem overlap_ratio_self (c g0 : Code) (h : g0.name = c.name) :
    (((((splitTokens c.name).filter
        (fun w => (splitTokens g0.name).contains w)).length : ℚ)) /
      ((max (splitTokens c.name).length (splitTokens g0.name).length : ℕ) : ℚ))
      = 1 := by
  rw [h]
  have h1 : (splitTokens c.name).filter
      (fun w => (splitTokens c.name).contains w) = splitTokens c.name :=
    List.filter_eq_self.mpr (fun a ha => List.elem_eq_true_of_mem ha)
  rw [h1, max_self]
  have h0 : splitTokens c.name ≠ [] := splitTokens_ne_nil c.name
  have h2 : ((splitTokens c.name).length : ℚ) ≠ 0 := by
    rw [Nat.cast_ne_zero]
    simpa [List.length_eq_zero] using h0
  exact div_self h2

/-- The coding engine's similarity test identifies same-named codes. -/
theorem codingSimRefl : SimRefl CodingEngine.codesAreSimilar := by
  intro c g0 h
  simp only [CodingEngine.codesAreSimilar, decide_eq_true_eq]
  rw [overlap_ratio_self c g0 h]
  norm_num

/-- The theme engine's similarity test identifies same-named codes. -/
theorem themeSimRefl : SimRefl ThemeEngine.codesAreSimilar := by
  intro c g0 h
  simp only [ThemeEngine.codesAreSimilar, decide_eq_true_eq]
  rw [overlap_ratio_self c g0 h]
  norm_num

/-- Appending to a non-empty list keeps its head. -/
theorem headD_append_of_ne_nil (g : List Code) (c d : Code) (h : g ≠ []) :
    (g ++ [c]).headD d = g.headD d := by
  cases g with
  | nil => exact absurd rfl h
  | cons a as => simp

/-- One grouping step preserves well-formedness. -/
theorem groupsWF_addCode (sim : Code → Code → Bool) (hsim : SimRefl sim)
    (gs : List (String × List Code)) (c : Code) (hwf : GroupsWF gs) :
    GroupsWF (addCodeToGroups sim gs c) := by
  unfold addCodeToGroups
  cases hpush : pushToFirstSimilar sim c gs with
  | some gs2 =>
    obtain ⟨pre, post, k, g, hgs, hgs2, _⟩ :=
      pushToFirstSimilar_some_decomp sim c gs gs2 hpush
    subst hgs2
    intro p hp
    rcases List.mem_append.mp hp with hpre | hmid
    · exact hwf p (by rw [hgs]; exact List.mem_append_left _ hpre)
    · rcases List.mem_cons.mp hmid with hpk | hpost
      · have hkg := hwf (k, g) (by rw [hgs]; simp)
        subst hpk
        refine ⟨by simp, ?_⟩
        rw [headD_append_of_ne_nil g c defaultCode hkg.1]
        exact hkg.2
      · exact hwf p (by rw [hgs]; exact List.mem_append_right _ (by simp [hpost]))
  | none =>
    have hfresh : ∀ p ∈ gs, p.1 ≠ c.name := by
      intro p hp hcon
      have hfalse := pushToFirstSimilar_none_iff sim c gs hpush p hp
      have hname : (p.2.headD defaultCode).name = p.1 := (hwf p hp).2
      have htrue : sim c (p.2.headD defaultCode) = true :=
        hsim c _ (by rw [hname, hcon])
      rw [htrue] at hfalse
      simp at hfalse
    rw [mapSet_of_fresh gs c.name [c] hfresh]
    intro p hp
    rcases List.mem_append.mp hp with hpre | hnew
    · exact hwf p hpre
    · have : p = (c.name, [c]) := by simpa using hnew
      subst this
      exact ⟨by simp, by simp⟩

/-- One grouping step adds exactly the incoming code's frequency. -/
theorem groupsFreq_addCode (sim : Code → Code → Bool) (hsim : SimRefl sim)
    (gs : List (String × List Code)) (c : Code) (hwf : GroupsWF gs) :
    groupsFreq (addCodeToGroups sim gs c) = groupsFreq gs + c.frequency := by
  unfold addCodeToGroups
  cases hpush : pushToFirstSimilar sim c gs with
  | some gs2 =>
    obtain ⟨pre, post, k, g, hgs, hgs2, _⟩ :=
      pushToFirstSimilar_some_decomp sim c gs gs2 hpush
    subst hgs2
    rw [hgs]
    simp only [groupsFreq, sumFreq, List.map_append, List.map_cons,
      List.sum_append, List.sum_cons, List.map_nil, List.sum_nil]
    ring
  | none =>
    have hfresh : ∀ p ∈ gs, p.1 ≠ c.name := by
      intro p hp hcon
      have hfalse := pushToFirstSimilar_none_iff sim c gs hpush p hp
      have hname : (p.2.headD defaultCode).name = p.1 := (hwf p hp).2
      have htrue : sim c (p.2.headD defaultCode) = true :=
        hsim c _ (by rw [hname, hcon])
      rw [htrue] at hfalse
      simp at hfalse
    rw [mapSet_of_fresh gs c.name [c] hfresh]
    simp [groupsFreq, sumFreq]

/-- One grouping step adds at most one group. -/
theorem length_addCode_le (sim : Code → Code → Bool)
    (gs : List (String × List Code)) (c : Code) :
    (addCodeToGroups sim gs c).length ≤ gs.length + 1 := by
  unfold addCodeToGroups
  cases hpush : pushToFirstSimilar sim c gs with
  | some gs2 =>
    obtain ⟨pre, post, k, g, hgs, hgs2, _⟩ :=
      pushToFirstSimilar_some_decomp sim c gs gs2 hpush
    subst hgs2
    rw [hgs]
    simp
  | none => exact length_mapSet_le gs c.name [c]

/-- The grouping fold preserves well-formedness and total frequency. -/
theorem buildGroups_wf_freq (sim : Code → Code → Bool) (hsim : SimRefl sim) :
    ∀ (codes : List Code) (gs : List (String × List Code)), GroupsWF gs →
    GroupsWF (codes.foldl (addCodeToGroups sim) gs) ∧
      groupsFreq (codes.foldl (addCodeToGroups sim) gs) =
        groupsFreq gs + sumFreq codes := by
  intro codes
  induction codes with
  | nil => intro gs hwf; exact ⟨hwf, by simp [sumFreq]⟩
  | cons c cs ih =>
    intro gs hwf
    rw [List.foldl_cons]
    obtain ⟨hwf2, hfreq2⟩ := ih _ (groupsWF_addCode sim hsim gs c hwf)
    refine ⟨hwf2, ?_⟩
    rw [hfreq2, groupsFreq_addCode sim hsim gs c hwf]
    simp only [sumFreq, List.map_cons, List.sum_cons]
    ring

/-- The grouping fold creates at most one group per code. -/
theorem buildGroups_length_le (sim : Code → Code → Bool) :
    ∀ (codes : List Code) (gs : List (String × List Code)),
    (codes.foldl (addCodeToGroups sim) gs).length ≤ gs.length + codes.length := by
  intro codes
  induction codes with
  | nil => intro gs; simp
  | cons c cs ih =>
    intro gs
    rw [List.foldl_cons]
    have h1 := ih (addCodeToGroups sim gs c)
    have h2 := length_addCode_le sim gs c
    simp only [List.length_cons]
    omega

/-- Folding `+ frequency` from an initial value is adding the frequency sum. -/
theorem foldl_add_frequency (l : List Code) :
    ∀ (init : Int), l.foldl (fun sum c => sum + c.frequency) init
      = init + sumFreq l := by
  induction l with
  | nil => intro init; simp [sumFreq]
  | cons c cs ih =>
    intro init
    rw [List.foldl_cons, ih]
    simp only [sumFreq, List.map_cons, List.sum_cons]
    ring

/-- The merged code of a group carries the group's total frequency. -/
theorem mergeGroup_frequency (g : List Code) :
    (CodingEngine.mergeGroup g).frequency = sumFreq g := by
  simp [CodingEngine.mergeGroup, foldl_add_frequency]

/-- The empty grouping map is well-formed. -/
theorem groupsWF_nil : GroupsWF [] := by
  intro p hp
  simp at hp

/-- When no group is similar, the step appends a fresh singleton group. -/
theorem addCodeToGroups_none_eq (sim : Code → Code → Bool) (hsim : SimRefl sim)
    (gs : List (String × List Code)) (c : Code) (hwf : GroupsWF gs)
    (hpush : pushToFirstSimilar sim c gs = none) :
    addCodeToGroups sim gs c = gs ++ [(c.name, [c])] := by
  unfold addCodeToGroups
  rw [hpush]
  apply mapSet_of_fresh
  intro p hp hcon
  have hfalse := pushToFirstSimilar_none_iff sim c gs hpush p hp
  have hname : (p.2.headD defaultCode).name = p.1 := (hwf p hp).2
  have htrue : sim c (p.2.headD defaultCode) = true :=
    hsim c _ (by rw [hname, hcon])
  rw [htrue] at hfalse
  simp at hfalse

/-- Groups only grow along the fold: every group of the initial map has a
descendant with the same key and at least its size in the final map. -/
theorem foldl_addCode_grow (sim : Code → Code → Bool) (hsim : SimRefl sim) :
    ∀ (codes : List Code) (gs : List (String × List Code)), GroupsWF gs →
    ∀ p ∈ gs, ∃ q ∈ codes.foldl (addCodeToGroups sim) gs,
      q.1 = p.1 ∧ p.2.length ≤ q.2.length := by
  intro codes
  induction codes with
  | nil =>
    intro gs _ p hp
    exact ⟨p, by simpa using hp, rfl, le_refl _⟩
  | cons c cs ih =>
    intro gs hwf p hp
    rw [List.foldl_cons]
    have hwf2 := groupsWF_addCode sim hsim gs c hwf
    have hstep : ∃ q ∈ addCodeToGroups sim gs c,
        q.1 = p.1 ∧ p.2.length ≤ q.2.length := by
      cases hpush : pushToFirstSimilar sim c gs with
      | some gs2 =>
        have haddeq : addCodeToGroups sim gs c = gs2 := by
          unfold addCodeToGroups
          rw [hpush]
        obtain ⟨pre, post, k, g, hgs, hgs2, _⟩ :=
          pushToFirstSimilar_some_decomp sim c gs gs2 hpush
        rw [haddeq, hgs2]
        rw [hgs] at hp
        rcases List.mem_append.mp hp with hpre | hmid
        · exact ⟨p, List.mem_append_left _ hpre, rfl, le_refl _⟩
        · rcases List.mem_cons.mp hmid with hpk | hpost
          · subst hpk
            exact ⟨(k, g ++ [c]), by simp, rfl, by simp⟩
          · exact ⟨p, List.mem_append_right _ (by simp [hpost]), rfl, le_refl _⟩
      | none =>
        rw [addCodeToGroups_none_eq sim hsim gs c hwf hpush]
        exact ⟨p, List.mem_append_left _ hp, rfl, le_refl _⟩
    obtain ⟨q, hq, hq1, hq2⟩ := hstep
    obtain ⟨r, hr, hr1, hr2⟩ := ih (addCodeToGroups sim gs c) hwf2 q hq
    exact ⟨r, hr, by rw [hr1, hq1], le_trans hq2 hr2⟩

/-- If every group of the final map is a singleton, every code started its own
group, in input order. -/
theorem foldl_addCode_all_singleton (sim : Code → Code → Bool)
    (hsim : SimRefl sim) :
    ∀ (codes : List Code) (gs : List (String × List Code)), GroupsWF gs →
    (∀ q ∈ codes.foldl (addCodeToGroups sim) gs, q.2.length = 1) →
    codes.foldl (addCodeToGroups sim) gs =
      gs ++ codes.map (fun c => (c.name, [c])) := by
  intro codes
  induction codes with
  | nil => intro gs _ _; simp
  | cons c cs ih =>
    intro gs hwf hall
    rw [List.foldl_cons] at hall ⊢
    cases hpush : pushToFirstSimilar sim c gs with
    | some gs2 =>
      exfalso
      obtain ⟨pre, post, k, g, hgs, hgs2, _⟩ :=
        pushToFirstSimilar_some_decomp sim c gs gs2 hpush
      have hwf2 : GroupsWF (addCodeToGroups sim gs c) :=
        groupsWF_addCode sim hsim gs c hwf
      have haddeq : addCodeToGroups sim gs c = gs2 := by
        unfold addCodeToGroups
        rw [hpush]
      have hmem : (k, g ++ [c]) ∈ addCodeToGroups sim gs c := by
        rw [haddeq, hgs2]
        simp
      obtain ⟨q, hq, _, hq2⟩ :=
        foldl_addCode_grow sim hsim cs (addCodeToGroups sim gs c) hwf2
          (k, g ++ [c]) hmem
      have hg_ne : g ≠ [] := (hwf (k, g) (by rw [hgs]; simp)).1
      have hlen2 : 2 ≤ (g ++ [c]).length := by
        cases g with
        | nil => exact absurd rfl hg_ne
        | cons a as => simp
      have hq1 := hall q hq
      simp only [List.length_append, List.length_cons] at hq2 hlen2
      omega
    | none =>
      have heq := addCodeToGroups_none_eq sim hsim gs c hwf hpush
      rw [heq] at hall ⊢
      have hwf2 : GroupsWF (gs ++ [(c.name, [c])]) := by
        rw [← heq]
        exact groupsWF_addCode sim hsim gs c hwf
      rw [ih _ hwf2 hall]
      simp

/-- Claim C2: `refineCodebook` returns at most as many codes as it was given,
and the total frequency over the refined codes equals the total over the
input codes. -/
theorem refineCodebook_length_and_frequency (codes : List Code) :
    (CodingEngine.refineCodebook codes).refined.length ≤ codes.length ∧
      sumFreq (CodingEngine.refineCodebook codes).refined = sumFreq codes := by
  obtain ⟨hwf, hfreq⟩ := buildGroups_wf_freq CodingEngine.codesAreSimilar
    codingSimRefl codes [] groupsWF_nil
  have hlen := buildGroups_length_le CodingEngine.codesAreSimilar codes []
  constructor
  · simp only [CodingEngine.refineCodebook, List.length_map]
    simpa [buildGroups] using hlen
  · have hmap : ∀ kg ∈ buildGroups CodingEngine.codesAreSimilar codes,
        (if kg.2.length > 1 then CodingEngine.mergeGroup kg.2
          else kg.2.headD defaultCode).frequency = sumFreq kg.2 := by
      intro kg hkg
      by_cases hl : kg.2.length > 1
      · rw [if_pos hl, mergeGroup_frequency]
      · rw [if_neg hl]
        have hne := (hwf kg hkg).1
        cases hcase : kg.2 with
        | nil => exact absurd hcase hne
        | cons x xs =>
          cases xs with
          | nil => simp [hcase, sumFreq]
          | cons y ys =>
            rw [hcase] at hl
            simp at hl
    calc sumFreq (CodingEngine.refineCodebook codes).refined
        = ((buildGroups CodingEngine.codesAreSimilar codes).map
            (fun kg => (if kg.2.length > 1 then CodingEngine.mergeGroup kg.2
              else kg.2.headD defaultCode).frequency)).sum := by
          simp only [CodingEngine.refineCodebook, sumFreq, List.map_map]
          rfl
      _ = ((buildGroups CodingEngine.codesAreSimilar codes).map
            (fun kg => sumFreq kg.2)).sum := by
          rw [List.map_congr_left hmap]
      _ = sumFreq codes := by
          simpa [groupsFreq, buildGroups] using hfreq

/-- Claim C3 (counterexample): re-running `refineCodebook` on its own refined
output can perform a further merge.  The first run merges `x-y-z-q` into
`x-y-z`; the shortened name is then similar to the previously dissimilar
`x-y`, so the second run merges again. -/
theorem refineCodebook_not_idempotent_cex :
    (CodingEngine.refineCodebook (CodingEngine.refineCodebook
      [{ name := "x-y-z-q", definition := "", examples := [], frequency := 1,
         type := CodeType.constructed },
       { name := "x-y-z", definition := "", examples := [], frequency := 2,
         type := CodeType.constructed },
       { name := "x-y", definition := "", examples := [], frequency := 4,
         type := CodeType.constructed }]).refined).merges ≠ [] := by
  decide

/-- Claim C3 (amended): a `refineCodebook` run that performs zero merges is a
fixpoint — its refined output is exactly the input, so re-running it performs
zero further merges. -/
theorem refineCodebook_fixpoint (codes : List Code)
    (h : (CodingEngine.refineCodebook codes).merges = []) :
    (CodingEngine.refineCodebook codes).refined = codes ∧
      (CodingEngine.refineCodebook
        (CodingEngine.refineCodebook codes).refined).merges = [] := by
  have hwf : GroupsWF (buildGroups CodingEngine.codesAreSimilar codes) :=
    (buildGroups_wf_freq CodingEngine.codesAreSimilar codingSimRefl codes []
      groupsWF_nil).1
  have hfilter : (buildGroups CodingEngine.codesAreSimilar codes).filter
      (fun kg => decide (kg.2.length > 1)) = [] := by
    simp only [CodingEngine.refineCodebook] at h
    exact List.map_eq_nil_iff.mp h
  have hall1 : ∀ kg ∈ buildGroups CodingEngine.codesAreSimilar codes,
      kg.2.length = 1 := by
    intro kg hkg
    have h1 := List.filter_eq_nil_iff.mp hfilter kg hkg
    have hne := (hwf kg hkg).1
    have h0 : kg.2.length ≠ 0 := by simpa [List.length_eq_zero] using hne
    simp only [decide_eq_true_eq] at h1
    omega
  have hgroups : buildGroups CodingEngine.codesAreSimilar codes =
      codes.map (fun c => (c.name, [c])) := by
    have := foldl_addCode_all_singleton CodingEngine.codesAreSimilar
      codingSimRefl codes [] groupsWF_nil (by simpa [buildGroups] using hall1)
    simpa [buildGroups] using this
  have hrefined : (CodingEngine.refineCodebook codes).refined = codes := by
    simp only [CodingEngine.refineCodebook, hgroups, List.map_map]
    have : ∀ c ∈ codes,
        ((fun kg => if kg.2.length > 1 then CodingEngine.mergeGroup kg.2
            else kg.2.headD defaultCode) ∘ (fun c => (c.name, [c]))) c = c := by
      intro c _
      simp
    rw [List.map_congr_left this]
    simp
  exact ⟨hrefined, by rw [hrefined]; exact h⟩

/-- Claim C3 (witness): on two dissimilar codes the run performs no merges,
so it is a fixpoint. -/
theorem refineCodebook_fixpoint_witness :
    (CodingEngine.refineCodebook
      [{ name := "anxiety", definition := "feeling anxious", examples := [],
         frequency := 3, type := CodeType.in_vivo },
       { name := "exercise", definition := "physical activity", examples := [],
         frequency := 2, type := CodeType.constructed }]).refined =
      [{ name := "anxiety", definition := "feeling anxious", examples := [],
         frequency := 3, type := CodeType.in_vivo },
       { name := "exercise", definition := "physical activity", examples := [],
         frequency := 2, type := CodeType.constructed }] ∧
    (CodingEngine.refineCodebook (CodingEngine.refineCodebook
      [{ name := "anxiety", definition := "feeling anxious", examples := [],
         frequency := 3, type := CodeType.in_vivo },
       { name := "exercise", definition := "physical activity", examples := [],
         frequency := 2, type := CodeType.constructed }]).refined).merges = [] :=
  refineCodebook_fixpoint _ (by decide)

/-- Filtering with a stronger predicate keeps at most as many elements. -/
theorem length_filter_le_of_imp {α : Type} (p q : α → Bool) (l : List α)
    (h : ∀ a, p a = true → q a = true) :
    (l.filter p).length ≤ (l.filter q).length := by
  induction l with
  | nil => simp
  | cons x xs ih =>
    by_cases hx : p x = true
    · rw [List.filter_cons, if_pos hx, List.filter_cons, if_pos (h x hx)]
      simpa using ih
    · rw [List.filter_cons, if_neg hx, List.filter_cons]
      by_cases hqx : q x = true
      · rw [if_pos hqx]
        exact le_trans ih (by simp)
      · rw [if_neg hqx]
        exact ih

/-- Claim C8: on identical input, `findNegativeCases` keeps all detected
cases at threshold weak, drops weak-strength cases at moderate, keeps only
strong-strength cases at strong, and the returned counts are monotonically
non-increasing as the threshold tightens. -/
theorem findNegativeCases_threshold_monotone (theme : ThemeEngine.Theme)
    (allCodes : List Code) :
    (ThemeEngine.findNegativeCases theme allCodes
        ThemeEngine.Strength.weak).negativeCases =
      ThemeEngine.collectNegativeCases theme allCodes ∧
    (ThemeEngine.findNegativeCases theme allCodes
        ThemeEngine.Strength.moderate).negativeCases =
      (ThemeEngine.collectNegativeCases theme allCodes).filter
        (fun nc => nc.strength != ThemeEngine.Strength.weak) ∧
    (ThemeEngine.findNegativeCases theme allCodes
        ThemeEngine.Strength.strong).negativeCases =
      (ThemeEngine.collectNegativeCases theme allCodes).filter
        (fun nc => nc.strength == ThemeEngine.Strength.strong) ∧
    (ThemeEngine.findNegativeCases theme allCodes
        ThemeEngine.Strength.strong).negativeCases.length ≤
      (ThemeEngine.findNegativeCases theme allCodes
        ThemeEngine.Strength.moderate).negativeCases.length ∧
    (ThemeEngine.findNegativeCases theme allCodes
        ThemeEngine.Strength.moderate).negativeCases.length ≤
      (ThemeEngine.findNegativeCases theme allCodes
        ThemeEngine.Strength.weak).negativeCases.length := by
  have hweak : (ThemeEngine.findNegativeCases theme allCodes
      ThemeEngine.Strength.weak).negativeCases =
      ThemeEngine.collectNegativeCases theme allCodes := by
    simp [ThemeEngine.findNegativeCases]
  have hmod : (ThemeEngine.findNegativeCases theme allCodes
      ThemeEngine.Strength.moderate).negativeCases =
      (ThemeEngine.collectNegativeCases theme allCodes).filter
        (fun nc => nc.strength != ThemeEngine.Strength.weak) := by
    simp [ThemeEngine.findNegativeCases]
  have hstrong : (ThemeEngine.findNegativeCases theme allCodes
      ThemeEngine.Strength.strong).negativeCases =
      (ThemeEngine.collectNegativeCases theme allCodes).filter
        (fun nc => nc.strength == ThemeEngine.Strength.strong) := by
    simp [ThemeEngine.findNegativeCases]
  refine ⟨hweak, hmod, hstrong, ?_, ?_⟩
  · rw [hmod, hstrong]
    apply length_filter_le_of_imp
    intro nc hnc
    cases hs : nc.strength <;> simp_all
  · rw [hweak, hmod]
    exact List.length_filter_le _ _

/-- The first components of the saturation scan grow by one entry per source. -/
theorem detectScan_fst_length :
    ∀ (srcs : List (String × List Code)) (acc : List Nat × List String),
    ((srcs.foldl
      (fun (acc : List Nat × List String) src =>
        let sourceCodes := src.2
        let newCodes := sourceCodes.filter (fun c => !(acc.2.contains c.name))
        (acc.1 ++ [newCodes.length], acc.2 ++ newCodes.map (·.name)))
      acc).1).length = acc.1.length + srcs.length := by
  intro srcs
  induction srcs with
  | nil => intro acc; simp
  | cons s ss ih =>
    intro acc
    rw [List.foldl_cons, ih]
    simp
    omega

/-- Claim C5: on the empty source map `detectSaturation` computes `0/0`, the
IEEE `NaN` (embedded as `none`), which is not a rate in `[0,1]`; on every
non-empty source map the rate is a rational in `[0,1]`. -/
theorem detectSaturation_rate_NaN_empty_bounded_otherwise :
    (∀ level, (ThemeEngine.detectSaturation level []).saturationRate = none) ∧
    (∀ level (codesBySource : List (String × List Code)), codesBySource ≠ [] →
      ∃ r, (ThemeEngine.detectSaturation level codesBySource).saturationRate
        = some r ∧ 0 ≤ r ∧ r ≤ 1) := by
  constructor
  · intro level
    rfl
  · intro level codesBySource hne
    have hlen : ((codesBySource.foldl
        (fun (acc : List Nat × List String) src =>
          let sourceCodes := src.2
          let newCodes := sourceCodes.filter (fun c => !(acc.2.contains c.name))
          (acc.1 ++ [newCodes.length], acc.2 ++ newCodes.map (·.name)))
        ([], [])).1).length = codesBySource.length := by
      simpa using detectScan_fst_length codesBySource ([], [])
    simp only [ThemeEngine.detectSaturation]
    set ncps := (codesBySource.foldl
        (fun (acc : List Nat × List String) src =>
          let sourceCodes := src.2
          let newCodes := sourceCodes.filter (fun c => !(acc.2.contains c.name))
          (acc.1 ++ [newCodes.length], acc.2 ++ newCodes.map (·.name)))
        ([], [])).1 with hncps
    have hrecne : ncps.drop (ncps.length - 3) ≠ [] := by
      intro hcon
      have h1 := List.drop_eq_nil_iff.mp hcon
      have h2 : 1 ≤ codesBySource.length := by
        cases codesBySource with
        | nil => exact absurd rfl hne
        | cons a as => simp
      omega
    cases hrec : ncps.drop (ncps.length - 3) with
    | nil => exact absurd hrec hrecne
    | cons a as =>
      refine ⟨1 - min ((((a :: as).sum : ℚ) / ((a :: as).length : ℚ)) / 5) 1,
        rfl, ?_, ?_⟩
      · have hmin : min ((((a :: as).sum : ℚ) / ((a :: as).length : ℚ)) / 5) 1
            ≤ 1 := min_le_right _ _
        linarith
      · have hnn : (0 : ℚ) ≤ (((a :: as).sum : ℚ) / ((a :: as).length : ℚ)) / 5 := by
          positivity
        have hmin : (0 : ℚ) ≤
            min ((((a :: as).sum : ℚ) / ((a :: as).length : ℚ)) / 5) 1 :=
          le_min hnn (by norm_num)
        linarith

/-- Claim C5 (witness): a one-source map gets a rate in `[0,1]`. -/
theorem detectSaturation_rate_bounded_witness :
    ∃ r, (ThemeEngine.detectSaturation ThemeEngine.SaturationLevel.code
      [("s1", [{ name := "c1", definition := "", examples := [],
                 frequency := 1, type := CodeType.constructed }])]).saturationRate
        = some r ∧ 0 ≤ r ∧ r ≤ 1 :=
  detectSaturation_rate_NaN_empty_bounded_otherwise.2
    ThemeEngine.SaturationLevel.code _ (by decide)

/-- Claim C6: on three sources with code-name sets `{c1,c2}`, `{c1}`, `{c1}`
the saturation rate is `13/15 > 0.8` and saturation is reported; on three
fully disjoint sources `{c1}`, `{c2}`, `{c3}` saturation is not reported. -/
theorem detectSaturation_concrete_scenarios :
    (ThemeEngine.detectSaturation ThemeEngine.SaturationLevel.code
      [("source1",
        [{ name := "c1", definition := "", examples := [], frequency := 1,
           type := CodeType.constructed },
         { name := "c2", definition := "", examples := [], frequency := 1,
           type := CodeType.constructed }]),
       ("source2",
        [{ name := "c1", definition := "", examples := [], frequency := 1,
           type := CodeType.constructed }]),
       ("source3",
        [{ name := "c1", definition := "", examples := [], frequency := 1,
           type := CodeType.constructed }])]).saturated = true ∧
    (ThemeEngine.detectSaturation ThemeEngine.SaturationLevel.code
      [("source1",
        [{ name := "c1", definition := "", examples := [], frequency := 1,
           type := CodeType.constructed },
         { name := "c2", definition := "", examples := [], frequency := 1,
           type := CodeType.constructed }]),
       ("source2",
        [{ name := "c1", definition := "", examples := [], frequency := 1,
           type := CodeType.constructed }]),
       ("source3",
        [{ name := "c1", definition := "", examples := [], frequency := 1,
           type := CodeType.constructed }])]).saturationRate
      = some (13 / 15) ∧
    ((13 : ℚ) / 15 > 8 / 10) ∧
    (ThemeEngine.detectSaturation ThemeEngine.SaturationLevel.code
      [("source1",
        [{ name := "c1", definition := "", examples := [], frequency := 1,
           type := CodeType.constructed }]),
       ("source2",
        [{ name := "c2", definition := "", examples := [], frequency := 1,
           type := CodeType.constructed }]),
       ("source3",
        [{ name := "c3", definition := "", examples := [], frequency := 1,
           type := CodeType.constructed }])]).saturated = false := by
  refine ⟨by decide, by decide, by norm_num, by decide⟩

/-- A `filterMap` whose function is a guarded `some` is a filter then a map. -/
theorem filterMap_if_eq_filter_map {α β : Type} (p : α → Bool) (f : α → β)
    (l : List α) :
    l.filterMap (fun a => if p a then some (f a) else none) =
      (l.filter p).map f := by
  induction l with
  | nil => simp
  | cons x xs ih =>
    by_cases hx : p x = true
    · rw [List.filterMap_cons, List.filter_cons]
      simp [hx, ih]
    · rw [List.filterMap_cons, List.filter_cons]
      simp [hx, ih]

/-- Claim C9 (amended): the quote-derived part of `extractInVivoCodes` is
exactly one in-vivo code per extracted quote whose cleaned length is strictly
greater than 10 and strictly less than 50; quotes outside that range produce
no code. -/
theorem extractInVivoCodes_quote_characterization (text : String) :
    CodingEngine.extractInVivoCodes text =
      ((CodingEngine.findQuotes text.data).filter (fun q =>
        (CodingEngine.cleanQuote q).data.length > 10 &&
          (CodingEngine.cleanQuote q).data.length < 50)).map
        (CodingEngine.mkQuoteCode text) ++ CodingEngine.scanEmotions text := by
  simp only [CodingEngine.extractInVivoCodes]
  rw [filterMap_if_eq_filter_map]

/-- Claim C9 (counterexample): a quoted substring of length exactly 10 — in
the claimed range `[10, 50)` — produces no code, because the source requires
length strictly greater than 10. -/
theorem extractInVivoCodes_len10_quote_cex :
    CodingEngine.extractInVivoCodes "\"abcdefghij\"" = [] ∧
    (CodingEngine.findQuotes ("\"abcdefghij\"" : String).data).map
      (fun q => (CodingEngine.cleanQuote q).data.length) = [10] := by
  refine ⟨by decide, by decide⟩

/-- Claim C10 (counterexample): the deductive keyword check against the code
*name* is case-sensitive: a code named `Difficult` matches no framework even
though the keyword `difficult` occurs in the name up to case, while the
lowercase-named twin produces a theme. -/
theorem deductiveThemeExtraction_case_sensitive_name_cex :
    (ThemeEngine.deductiveThemeExtraction
      [{ name := "Difficult", definition := "x", examples := [],
         frequency := 1, type := CodeType.constructed }] "medium").length = 0 ∧
    containsStr (toLowerStr "Difficult") "difficult" = true ∧
    (ThemeEngine.deductiveThemeExtraction
      [{ name := "difficult", definition := "x", examples := [],
         frequency := 1, type := CodeType.constructed }] "medium").length = 1 := by
  refine ⟨by decide, by decide, by decide⟩

/-- Claim C10 (amended): in deductive extraction a code is matched to a
framework whenever some keyword occurs in the code's name (case-sensitively,
as written) or in the lowercased definition; the matched code's name then
appears among the supporting codes of that framework's theme. -/
theorem deductiveThemeExtraction_keyword_match (codes : List Code)
    (depth : String) (c : Code) (framework : String × List String)
    (hc : c ∈ codes) (hf : framework ∈ ThemeEngine.theoreticalFrameworks)
    (hkw : ∃ kw ∈ framework.2, containsStr c.name kw = true ∨
      containsStr (toLowerStr c.definition) kw = true) :
    ∃ t ∈ ThemeEngine.deductiveThemeExtraction codes depth,
      t.name = framework.1 ∧ c.name ∈ t.supportingCodes := by
  have hmatch : ThemeEngine.matchesFramework framework.2 c = true := by
    obtain ⟨kw, hkwmem, hor⟩ := hkw
    simp only [ThemeEngine.matchesFramework, List.any_eq_true]
    refine ⟨kw, hkwmem, ?_⟩
    rcases hor with h | h <;> simp [h]
  have hcfil : c ∈ codes.filter (ThemeEngine.matchesFramework framework.2) :=
    List.mem_filter.mpr ⟨hc, hmatch⟩
  have hpos : (codes.filter (ThemeEngine.matchesFramework framework.2)).length
      > 0 := by
    cases hf2 : codes.filter (ThemeEngine.matchesFramework framework.2) with
    | nil => rw [hf2] at hcfil; simp at hcfil
    | cons x xs => simp
  refine ⟨ThemeEngine.Theme.mk framework.1
    "Theme identified through deductive analysis based on theoretical framework"
    ((codes.filter (ThemeEngine.matchesFramework framework.2)).map (·.name))
    (ThemeEngine.calculatePrevalence
      (codes.filter (ThemeEngine.matchesFramework framework.2)) codes)
    (((codes.filter (ThemeEngine.matchesFramework framework.2)).flatMap
      (·.examples)).take 3) none, ?_, rfl, ?_⟩
  · simp only [ThemeEngine.deductiveThemeExtraction]
    rw [mem_sortStable]
    apply List.mem_filterMap.mpr
    refine ⟨framework, hf, ?_⟩
    dsimp only
    rw [if_pos hpos]
  · simp only [ThemeEngine.Theme.supportingCodes]
    exact List.mem_map_of_mem _ hcfil

/-- Membership after `mapSet`: an entry is an old one or the new binding. -/
theorem mem_mapSet {α : Type} (m : List (String × α)) (k : String) (v : α)
    (p : String × α) (hp : p ∈ mapSet m k v) : p ∈ m ∨ p = (k, v) := by
  induction m with
  | nil => simp [mapSet] at hp; exact Or.inr hp
  | cons q rest ih =>
    obtain ⟨k1, v1⟩ := q
    by_cases hk : k1 == k
    · rw [mapSet, if_pos hk] at hp
      rcases List.mem_cons.mp hp with h1 | h2
      · exact Or.inr h1
      · exact Or.inl (List.mem_cons_of_mem _ h2)
    · rw [mapSet, if_neg hk] at hp
      rcases List.mem_cons.mp hp with h1 | h2
      · exact Or.inl (by simp [h1])
      · rcases ih h2 with h3 | h4
        · exact Or.inl (List.mem_cons_of_mem _ h3)
        · exact Or.inr h4

/-- Every group that the grouping fold builds is a subsequence of the initial
group contents extended by the processed codes. -/
theorem foldl_addCode_sublist (sim : Code → Code → Bool) :
    ∀ (codes : List Code) (gs : List (String × List Code)) (C : List Code),
    (∀ p ∈ gs, p.2.Sublist C) →
    ∀ p ∈ codes.foldl (addCodeToGroups sim) gs, p.2.Sublist (C ++ codes) := by
  intro codes
  induction codes with
  | nil =>
    intro gs C h p hp
    simpa using h p (by simpa using hp)
  | cons c cs ih =>
    intro gs C h p hp
    rw [List.foldl_cons] at hp
    have hstep : ∀ q ∈ addCodeToGroups sim gs c, q.2.Sublist (C ++ [c]) := by
      intro q hq
      unfold addCodeToGroups at hq
      cases hpush : pushToFirstSimilar sim c gs with
      | some gs2 =>
        rw [hpush] at hq
        obtain ⟨pre, post, k, g, hgs, hgs2, _⟩ :=
          pushToFirstSimilar_some_decomp sim c gs gs2 hpush
        subst hgs2
        rcases List.mem_append.mp hq with hq1 | hq2
        · exact (h q (by rw [hgs]; exact List.mem_append_left _ hq1)).trans
            (List.sublist_append_left _ _)
        · rcases List.mem_cons.mp hq2 with hq3 | hq4
          · subst hq3
            have hg : g.Sublist C := by
              simpa using h (k, g) (by rw [hgs]; simp)
            exact hg.append (List.Sublist.refl [c])
          · exact (h q (by
              rw [hgs]
              exact List.mem_append_right _ (by simp [hq4]))).trans
              (List.sublist_append_left _ _)
      | none =>
        rw [hpush] at hq
        rcases mem_mapSet gs c.name [c] q hq with hq1 | hq2
        · exact (h q hq1).trans (List.sublist_append_left _ _)
        · rw [hq2]
          exact List.sublist_append_right _ _
    have hfin := ih (addCodeToGroups sim gs c) (C ++ [c]) hstep p hp
    rw [List.append_cons]
    exact hfin

/-- Every group built by `buildGroups` is a subsequence of the input codes. -/
theorem buildGroups_sublist (sim : Code → Code → Bool) (codes : List Code) :
    ∀ p ∈ buildGroups sim codes, p.2.Sublist codes := by
  intro p hp
  have := foldl_addCode_sublist sim codes [] [] (by simp) p
    (by simpa [buildGroups] using hp)
  simpa using this

/-- The theme engine's `reduce`-style frequency sum agrees with `sumFreq`. -/
theorem sumFrequency_eq (l : List Code) :
    ThemeEngine.sumFrequency l = sumFreq l := by
  simp [ThemeEngine.sumFrequency, foldl_add_frequency]

/-- Prevalence of a subsequence of non-negative-frequency codes lies in
`[0,1]`. -/
theorem calculatePrevalence_bounds (members codes : List Code)
    (hsub : members.Sublist codes) (hfreq : ∀ c ∈ codes, 0 ≤ c.frequency) :
    0 ≤ ThemeEngine.calculatePrevalence members codes ∧
      ThemeEngine.calculatePrevalence members codes ≤ 1 := by
  simp only [ThemeEngine.calculatePrevalence, sumFrequency_eq]
  by_cases hpos : sumFreq codes > 0
  · rw [if_pos hpos]
    have hmemb : (0 : ℤ) ≤ sumFreq members := by
      apply List.sum_nonneg
      intro x hx
      obtain ⟨c, hc, rfl⟩ := List.mem_map.mp hx
      exact hfreq c (hsub.subset hc)
    have hle : sumFreq members ≤ sumFreq codes := by
      apply List.Sublist.sum_le_sum (hsub.map _)
      intro a ha
      obtain ⟨c, hc, rfl⟩ := List.mem_map.mp ha
      exact hfreq c hc
    constructor
    · apply div_nonneg
      · exact_mod_cast hmemb
      · exact_mod_cast le_of_lt hpos
    · rw [div_le_one (by exact_mod_cast hpos)]
      exact_mod_cast hle
  · rw [if_neg hpos]
    norm_num

/-- Claim C4 (amended): under frequencies at least 1, every theme from
`extractThemes` (either mode) has prevalence in `[0,1]` equal to its member
codes' frequency mass over the mass of *all input codes*, while every
sub-theme's prevalence — also in `[0,1]` — is its member mass over the mass
of the *parent theme's* codes, not over all input codes. -/
theorem extractThemes_prevalence_characterization (codes : List Code)
    (mode : ThemeEngine.ThemeMode) (depth : String) (t : ThemeEngine.Theme)
    (hfreq : ∀ c ∈ codes, 1 ≤ c.frequency)
    (ht : t ∈ ThemeEngine.extractThemes codes mode depth) :
    (0 ≤ t.prevalence ∧ t.prevalence ≤ 1 ∧
      ∃ members, members.Sublist codes ∧
        t.supportingCodes = members.map Code.name ∧
        t.prevalence = ThemeEngine.calculatePrevalence members codes) ∧
    (∀ sts, t.subThemes = some sts → ∀ st ∈ sts,
      0 ≤ st.prevalence ∧ st.prevalence ≤ 1 ∧
      ∃ parent members, parent.Sublist codes ∧ members.Sublist parent ∧
        st.supportingCodes = members.map Code.name ∧
        st.prevalence = ThemeEngine.calculatePrevalence members parent) := by
  have hfreq0 : ∀ c ∈ codes, 0 ≤ c.frequency := fun c hc =>
    le_trans zero_le_one (hfreq c hc)
  cases mode with
  | inductiveMode =>
    simp only [ThemeEngine.extractThemes,
      ThemeEngine.inductiveThemeExtraction] at ht
    rw [mem_sortStable] at ht
    obtain ⟨kg, hkg, hsome⟩ := List.mem_filterMap.mp ht
    by_cases hlen : kg.2.length < 2
    · rw [if_pos hlen] at hsome
      simp at hsome
    · rw [if_neg hlen] at hsome
      have ht_eq := Option.some.inj hsome
      subst ht_eq
      have hkg2 : kg ∈ buildGroups ThemeEngine.codesAreSimilar codes := by
        simpa [ThemeEngine.groupCodesBySimilarity] using hkg
      have hsub : kg.2.Sublist codes :=
        buildGroups_sublist ThemeEngine.codesAreSimilar codes kg hkg2
      have hb := calculatePrevalence_bounds kg.2 codes hsub hfreq0
      refine ⟨⟨hb.1, hb.2, kg.2, hsub, rfl, rfl⟩, ?_⟩
      intro sts hsts st hst
      simp only [ThemeEngine.Theme.subThemes] at hsts
      by_cases hdeep : (depth == "deep" && decide (kg.2.length > 5)) = true
      · rw [if_pos hdeep] at hsts
        have hsts_eq := Option.some.inj hsts
        subst hsts_eq
        simp only [ThemeEngine.identifySubThemes] at hst
        obtain ⟨kg2, hkg2mem, hsome2⟩ := List.mem_filterMap.mp hst
        by_cases hlen2 : kg2.2.length ≥ 2
        · rw [if_pos hlen2] at hsome2
          have hst_eq := Option.some.inj hsome2
          subst hst_eq
          have hkg2b : kg2 ∈ buildGroups ThemeEngine.codesAreSimilar kg.2 := by
            simpa [ThemeEngine.groupCodesBySimilarity] using hkg2mem
          have hsub2 : kg2.2.Sublist kg.2 :=
            buildGroups_sublist ThemeEngine.codesAreSimilar kg.2 kg2 hkg2b
          have hfreq2 : ∀ c ∈ kg.2, 0 ≤ c.frequency := fun c hc =>
            hfreq0 c (hsub.subset hc)
          have hb2 := calculatePrevalence_bounds kg2.2 kg.2 hsub2 hfreq2
          exact ⟨hb2.1, hb2.2, kg.2, kg2.2, hsub, hsub2, rfl, rfl⟩
        · rw [if_neg hlen2] at hsome2
          simp at hsome2
      · rw [if_neg hdeep] at hsts
        simp at hsts
  | deductiveMode =>
    simp only [ThemeEngine.extractThemes,
      ThemeEngine.deductiveThemeExtraction] at ht
    rw [mem_sortStable] at ht
    obtain ⟨fw, hfw, hsome⟩ := List.mem_filterMap.mp ht
    by_cases hpos : (codes.filter (ThemeEngine.matchesFramework fw.2)).length > 0
    · rw [if_pos hpos] at hsome
      have ht_eq := Option.some.inj hsome
      subst ht_eq
      have hsub : (codes.filter (ThemeEngine.matchesFramework fw.2)).Sublist
          codes := List.filter_sublist _
      have hb := calculatePrevalence_bounds _ codes hsub hfreq0
      refine ⟨⟨hb.1, hb.2, _, hsub, rfl, rfl⟩, ?_⟩
      intro sts hsts st hst
      simp only [ThemeEngine.Theme.subThemes] at hsts
      simp at hsts
    · rw [if_neg hpos] at hsome
      simp at hsome

/-- Claim C4 (witness): two similar codes of frequencies 5 and 4 yield one
theme, whose prevalence satisfies the proven bounds. -/
theorem extractThemes_prevalence_characterization_witness :
    0 ≤ (ThemeEngine.Theme.mk "Feeling and Anxious and Stressed"
      "This theme encompasses 2 related codes: feeling-anxious, feeling-stressed. It represents a pattern of meaning across the data."
      ["feeling-anxious", "feeling-stressed"] 1 ["text1", "text2"]
      none).prevalence ∧
    (ThemeEngine.Theme.mk "Feeling and Anxious and Stressed"
      "This theme encompasses 2 related codes: feeling-anxious, feeling-stressed. It represents a pattern of meaning across the data."
      ["feeling-anxious", "feeling-stressed"] 1 ["text1", "text2"]
      none).prevalence ≤ 1 := by
  have h := extractThemes_prevalence_characterization
    [{ name := "feeling-anxious", definition := "experiencing anxiety",
       examples := ["text1"], frequency := 5, type := CodeType.in_vivo },
     { name := "feeling-stressed", definition := "experiencing stress",
       examples := ["text2"], frequency := 4, type := CodeType.in_vivo }]
    ThemeEngine.ThemeMode.inductiveMode "medium"
    (ThemeEngine.Theme.mk "Feeling and Anxious and Stressed"
      "This theme encompasses 2 related codes: feeling-anxious, feeling-stressed. It represents a pattern of meaning across the data."
      ["feeling-anxious", "feeling-stressed"] 1 ["text1", "text2"] none)
    (by decide) ?hmem
  case hmem =>
    have heval : ThemeEngine.extractThemes
        [{ name := "feeling-anxious", definition := "experiencing anxiety",
           examples := ["text1"], frequency := 5, type := CodeType.in_vivo },
         { name := "feeling-stressed", definition := "experiencing stress",
           examples := ["text2"], frequency := 4, type := CodeType.in_vivo }]
        ThemeEngine.ThemeMode.inductiveMode "medium" =
        [ThemeEngine.Theme.mk "Feeling and Anxious and Stressed"
          "This theme encompasses 2 related codes: feeling-anxious, feeling-stressed. It represents a pattern of meaning across the data."
          ["feeling-anxious", "feeling-stressed"] 1 ["text1", "text2"] none] := rfl
    rw [heval]
    exact List.mem_singleton.mpr rfl
  case _ =>
    exact ⟨h.1.1, h.1.2.1⟩

/-- Claim C4 (counterexample): in deep inductive extraction the sub-theme of
the six-code group has prevalence 1 — its member mass over the *parent
group's* mass — while the spec's formula (member mass over the mass of all
input codes) gives 6/7. -/
theorem extractThemes_subTheme_prevalence_cex :
    ((ThemeEngine.extractThemes deepCodesExample
      ThemeEngine.ThemeMode.inductiveMode "deep").map
        (fun t => (t.subThemes.getD []).map ThemeEngine.Theme.prevalence))
      = [[1]] ∧
    ((ThemeEngine.extractThemes deepCodesExample
      ThemeEngine.ThemeMode.inductiveMode "deep").map
        (fun t => (t.subThemes.getD []).map
          (fun st => specPrevalence st deepCodesExample))) = [[6 / 7]] ∧
    (1 : ℚ) ≠ 6 / 7 := by
  refine ⟨by decide, by decide, by norm_num⟩

/-- `mapSet` never returns the empty map. -/
theorem mapSet_ne_nil {α : Type} (m : List (String × α)) (k : String) (v : α) :
    mapSet m k v ≠ [] := by
  cases m with
  | nil => simp [mapSet]
  | cons p rest =>
    obtain ⟨k1, v1⟩ := p
    by_cases hk : k1 == k
    · simp [mapSet, hk]
    · simp [mapSet, hk]

/-- A successful category push splits the merged map around the receiving
category. -/
theorem pushToFirstSimilarCategory_some_decomp (entry : String × List Code) :
    ∀ (gs gs2 : List (String × List Code)),
    TheoryEngine.pushToFirstSimilarCategory entry gs = some gs2 →
    ∃ pre post k g, gs = pre ++ (k, g) :: post ∧
      gs2 = pre ++ (k, g ++ entry.2) :: post := by
  intro gs
  induction gs with
  | nil => intro gs2 h; simp [TheoryEngine.pushToFirstSimilarCategory] at h
  | cons p rest ih =>
    intro gs2 h
    obtain ⟨k, g⟩ := p
    by_cases hs : TheoryEngine.categoriesAreSimilar entry.1 k
    · refine ⟨[], rest, k, g, by simp, ?_⟩
      simp only [TheoryEngine.pushToFirstSimilarCategory, if_pos hs,
        Option.some.injEq] at h
      simp [← h]
    · simp only [TheoryEngine.pushToFirstSimilarCategory, if_neg hs] at h
      cases hrec : TheoryEngine.pushToFirstSimilarCategory entry rest with
      | none => rw [hrec] at h; simp at h
      | some restNew =>
        rw [hrec] at h
        simp only [Option.some.injEq] at h
        obtain ⟨pre, post, k2, g2, hgs, hgs2⟩ := ih restNew hrec
        refine ⟨(k, g) :: pre, post, k2, g2, by simp [hgs], ?_⟩
        rw [← h, hgs2]
        simp

/-- One merge step never empties the merged map. -/
theorem mergeStep_ne_nil (merged : List (String × List Code))
    (entry : String × List Code) :
    (match TheoryEngine.pushToFirstSimilarCategory entry merged with
      | some mergedNew => mergedNew
      | none => mapSet merged entry.1 entry.2) ≠ [] := by
  cases hpush : TheoryEngine.pushToFirstSimilarCategory entry merged with
  | some mergedNew =>
    obtain ⟨pre, post, k, g, _, hgs2⟩ :=
      pushToFirstSimilarCategory_some_decomp entry merged mergedNew hpush
    subst hgs2
    simp
  | none => exact mapSet_ne_nil merged entry.1 entry.2

/-- `mergeSimilarCategories` of a non-empty grouping map is non-empty. -/
theorem mergeSimilarCategories_ne_nil (groups : List (String × List Code))
    (hne : groups ≠ []) : TheoryEngine.mergeSimilarCategories groups ≠ [] := by
  have key : ∀ (l : List (String × List Code)) (acc : List (String × List Code)),
      acc ≠ [] →
      l.foldl (fun merged entry =>
        match TheoryEngine.pushToFirstSimilarCategory entry merged with
        | some mergedNew => mergedNew
        | none => mapSet merged entry.1 entry.2) acc ≠ [] := by
    intro l
    induction l with
    | nil => intro acc hacc; simpa using hacc
    | cons e es ih =>
      intro acc hacc
      rw [List.foldl_cons]
      exact ih _ (mergeStep_ne_nil acc e)
  cases groups with
  | nil => exact absurd rfl hne
  | cons e es =>
    simp only [TheoryEngine.mergeSimilarCategories, List.foldl_cons]
    exact key es _ (mergeStep_ne_nil [] e)

/-- Merging preserves "every category has at least one code". -/
theorem mergeSimilarCategories_values_ne_nil
    (groups : List (String × List Code))
    (hval : ∀ kg ∈ groups, kg.2 ≠ []) :
    ∀ kg ∈ TheoryEngine.mergeSimilarCategories groups, kg.2 ≠ [] := by
  have key : ∀ (l : List (String × List Code)) (acc : List (String × List Code)),
      (∀ kg ∈ acc, kg.2 ≠ []) → (∀ kg ∈ l, kg.2 ≠ []) →
      ∀ kg ∈ l.foldl (fun merged entry =>
        match TheoryEngine.pushToFirstSimilarCategory entry merged with
        | some mergedNew => mergedNew
        | none => mapSet merged entry.1 entry.2) acc, kg.2 ≠ [] := by
    intro l
    induction l with
    | nil => intro acc hacc _ kg hkg; exact hacc kg (by simpa using hkg)
    | cons e es ih =>
      intro acc hacc hl kg hkg
      rw [List.foldl_cons] at hkg
      have hstep : ∀ q ∈ (match TheoryEngine.pushToFirstSimilarCategory e acc with
          | some mergedNew => mergedNew
          | none => mapSet acc e.1 e.2), q.2 ≠ [] := by
        intro q hq
        cases hpush : TheoryEngine.pushToFirstSimilarCategory e acc with
        | some mergedNew =>
          rw [hpush] at hq
          obtain ⟨pre, post, k, g, hgs, hgs2⟩ :=
            pushToFirstSimilarCategory_some_decomp e acc mergedNew hpush
          subst hgs2
          rcases List.mem_append.mp hq with hq1 | hq2
          · exact hacc q (by rw [hgs]; exact List.mem_append_left _ hq1)
          · rcases List.mem_cons.mp hq2 with hq3 | hq4
            · subst hq3
              have : g ≠ [] := by
                simpa using hacc (k, g) (by rw [hgs]; simp)
              simp [this]
            · exact hacc q (by
                rw [hgs]
                exact List.mem_append_right _ (by simp [hq4]))
        | none =>
          rw [hpush] at hq
          rcases mem_mapSet acc e.1 e.2 q hq with hq1 | hq2
          · exact hacc q hq1
          · rw [hq2]
            exact hl e (by simp)
      exact ih _ hstep (fun kg2 hkg2 => hl kg2 (by simp [hkg2])) kg hkg
  intro kg hkg
  exact key groups [] (by simp) hval kg
    (by simpa [TheoryEngine.mergeSimilarCategories] using hkg)

/-- The raw per-name grouping of `groupCodesIntoCategories`: non-empty when
there are codes, and every bucket is non-empty. -/
theorem groupCodesRaw_props (codes : List Code) :
    (codes ≠ [] → codes.foldl
      (fun groups code =>
        let categoryName := TheoryEngine.inferCategoryName code
        mapSet groups categoryName
          (((mapGet groups categoryName).getD []) ++ [code])) [] ≠ []) ∧
    (∀ kg ∈ codes.foldl
      (fun groups code =>
        let categoryName := TheoryEngine.inferCategoryName code
        mapSet groups categoryName
          (((mapGet groups categoryName).getD []) ++ [code])) [],
      kg.2 ≠ []) := by
  have key : ∀ (l : List Code) (acc : List (String × List Code)),
      (∀ kg ∈ acc, kg.2 ≠ []) →
      (∀ kg ∈ l.foldl
        (fun groups code =>
          let categoryName := TheoryEngine.inferCategoryName code
          mapSet groups categoryName
            (((mapGet groups categoryName).getD []) ++ [code])) acc,
        kg.2 ≠ []) ∧
      (acc ≠ [] ∨ l ≠ [] → l.foldl
        (fun groups code =>
          let categoryName := TheoryEngine.inferCategoryName code
          mapSet groups categoryName
            (((mapGet groups categoryName).getD []) ++ [code])) acc ≠ []) := by
    intro l
    induction l with
    | nil =>
      intro acc hacc
      refine ⟨fun kg hkg => hacc kg (by simpa using hkg), ?_⟩
      intro hor
      rcases hor with h | h
      · simpa using h
      · exact absurd rfl h
    | cons c cs ih =>
      intro acc hacc
      rw [List.foldl_cons]
      have hstep : ∀ kg ∈ mapSet acc (TheoryEngine.inferCategoryName c)
          (((mapGet acc (TheoryEngine.inferCategoryName c)).getD []) ++ [c]),
          kg.2 ≠ [] := by
        intro kg hkg
        rcases mem_mapSet _ _ _ kg hkg with h1 | h2
        · exact hacc kg h1
        · rw [h2]
          simp
      obtain ⟨ih1, ih2⟩ := ih _ hstep
      refine ⟨ih1, fun _ => ih2 (Or.inl (mapSet_ne_nil _ _ _))⟩
  constructor
  · intro hne
    exact ((key codes [] (by simp)).2) (Or.inr hne)
  · exact (key codes [] (by simp)).1

/-- Claim C1: `buildGroundedTheory` surfaces the named "no categories" error
exactly when open coding yields no category, and returns a well-formed
`GroundedTheoryResult` whenever open coding yields at least one category —
which happens for every non-empty code list. -/
theorem buildGroundedTheory_noCategories_iff (codes : List Code)
    (themes : Option (List ThemeEngine.Theme)) (researchQuestion : String)
    (paradigm : TheoryEngine.Paradigm) :
    (TheoryEngine.identifyCategories codes paradigm = [] →
      TheoryEngine.buildGroundedTheory codes themes researchQuestion paradigm =
        Except.error TheoryEngine.noCategoriesMessage) ∧
    (TheoryEngine.identifyCategories codes paradigm ≠ [] →
      ∃ r, TheoryEngine.buildGroundedTheory codes themes researchQuestion
        paradigm = Except.ok r) ∧
    (codes ≠ [] → TheoryEngine.identifyCategories codes paradigm ≠ []) := by
  refine ⟨?_, ?_, ?_⟩
  · intro hcats
    simp only [TheoryEngine.buildGroundedTheory, TheoryEngine.performAxialCoding,
      hcats]
    simp [TheoryEngine.identifyCoreCategory, sortStable]
  · intro hcats
    cases hc : TheoryEngine.identifyCategories codes paradigm with
    | nil => exact absurd hc hcats
    | cons cat rest =>
      set categories := TheoryEngine.identifyCategories codes paradigm
        with hcatdef
      set axialResults := TheoryEngine.performAxialCoding categories codes
        with haxdef
      have hscores : ∀ (cats : List TheoryEngine.Category)
          (acc : List (String × ℚ)),
          (∀ p ∈ acc, ∃ cat2 ∈ categories, p.1 = cat2.name) →
          (∀ cat2 ∈ cats, cat2 ∈ categories) →
          ∀ p ∈ cats.foldl (fun m category =>
            mapSet m category.name
              (TheoryEngine.categoryScore category axialResults)) acc,
            ∃ cat2 ∈ categories, p.1 = cat2.name := by
        intro cats
        induction cats with
        | nil => intro acc hacc _ p hp; exact hacc p (by simpa using hp)
        | cons c2 cs2 ih =>
          intro acc hacc hcs p hp
          rw [List.foldl_cons] at hp
          have hstep : ∀ q ∈ mapSet acc c2.name
              (TheoryEngine.categoryScore c2 axialResults),
              ∃ cat2 ∈ categories, q.1 = cat2.name := by
            intro q hq
            rcases mem_mapSet _ _ _ q hq with h1 | h2
            · exact hacc q h1
            · rw [h2]
              exact ⟨c2, hcs c2 (by simp), rfl⟩
          exact ih _ hstep (fun x hx => hcs x (by simp [hx])) p hp
      have hscores_ne : categories.foldl (fun m category =>
          mapSet m category.name
            (TheoryEngine.categoryScore category axialResults)) [] ≠ [] := by
        rw [hc, List.foldl_cons]
        have key : ∀ (l : List TheoryEngine.Category)
            (acc : List (String × ℚ)), acc ≠ [] →
            l.foldl (fun m category =>
              mapSet m category.name
                (TheoryEngine.categoryScore category axialResults)) acc ≠ [] := by
          intro l
          induction l with
          | nil => intro acc hacc; simpa using hacc
          | cons x xs ih =>
            intro acc hacc
            rw [List.foldl_cons]
            exact ih _ (mapSet_ne_nil _ _ _)
        exact key rest _ (mapSet_ne_nil _ _ _)
      set categoryScores := categories.foldl (fun m category =>
        mapSet m category.name
          (TheoryEngine.categoryScore category axialResults)) []
        with hcsdef
      have hsorted_ne : sortStable (fun a b => decide (b.2 ≤ a.2))
          categoryScores ≠ [] := by
        intro hcon
        have := length_sortStable (fun (a b : String × ℚ) => decide (b.2 ≤ a.2))
          categoryScores
        rw [hcon] at this
        simp only [List.length_nil] at this
        exact hscores_ne (List.length_eq_zero.mp this.symm)
      cases hsorted : sortStable (fun a b => decide (b.2 ≤ a.2))
          categoryScores with
      | nil => exact absurd hsorted hsorted_ne
      | cons top restSorted =>
        have htop : top ∈ categoryScores := by
          rw [← mem_sortStable (fun (a b : String × ℚ) => decide (b.2 ≤ a.2))]
          rw [hsorted]
          simp
        obtain ⟨cat2, hcat2, hname⟩ := hscores categories [] (by simp)
          (fun x hx => hx) top htop
        have hfind : (categories.find? (fun c2 => c2.name == top.1)).isSome := by
          rw [List.find?_isSome]
          exact ⟨cat2, hcat2, by simp [hname]⟩
        cases hfound : categories.find? (fun c2 => c2.name == top.1) with
        | none => rw [hfound] at hfind; simp at hfind
        | some coreCat =>
          have hcc : ∃ cc, TheoryEngine.identifyCoreCategory categories
              axialResults researchQuestion = Except.ok cc := by
            simp only [TheoryEngine.identifyCoreCategory, ← hcsdef, hsorted,
              hfound]
            exact ⟨_, rfl⟩
          obtain ⟨cc, hccEq⟩ := hcc
          refine ⟨TheoryEngine.integrateTheory cc categories axialResults
            researchQuestion paradigm, ?_⟩
          simp only [TheoryEngine.buildGroundedTheory, ← hcatdef, ← haxdef,
            hccEq]

  · intro hcodes
    have hraw := groupCodesRaw_props codes
    have hgroups_ne := mergeSimilarCategories_ne_nil _ (hraw.1 hcodes)
    have hvals := mergeSimilarCategories_values_ne_nil _ hraw.2
    intro hcon
    cases hg : TheoryEngine.mergeSimilarCategories
        (codes.foldl (fun groups code =>
          let categoryName := TheoryEngine.inferCategoryName code
          mapSet groups categoryName
            (((mapGet groups categoryName).getD []) ++ [code])) []) with
    | nil => exact hgroups_ne hg
    | cons kg rest =>
      have hkgval : kg.2 ≠ [] := hvals kg (by rw [hg]; simp)
      have hmem : ∀ x, x ∈ TheoryEngine.identifyCategories codes paradigm ↔
          x ∈ (TheoryEngine.groupCodesIntoCategories codes).filterMap
            (fun kg2 =>
              if kg2.2.length < 1 then none
              else some {
                name := kg2.1
                description :=
                  TheoryEngine.generateCategoryDescription kg2.2 paradigm
                properties := TheoryEngine.identifyProperties kg2.2
                dimensions := TheoryEngine.identifyDimensions kg2.2
                relatedCodes := kg2.2.map (·.name)
                relatedCategories := []
                examples := (kg2.2.flatMap (·.examples)).take 3 }) := by
        intro x
        rfl
      have hkg_len : ¬ (kg.2.length < 1) := by
        cases hkk : kg.2 with
        | nil => exact absurd hkk hkgval
        | cons a as => simp [hkk]
      have : ({
          name := kg.1
          description := TheoryEngine.generateCategoryDescription kg.2 paradigm
          properties := TheoryEngine.identifyProperties kg.2
          dimensions := TheoryEngine.identifyDimensions kg.2
          relatedCodes := kg.2.map (·.name)
          relatedCategories := []
          examples := (kg.2.flatMap (·.examples)).take 3 } :
          TheoryEngine.Category) ∈
          TheoryEngine.identifyCategories codes paradigm := by
        rw [hmem]
        apply List.mem_filterMap.mpr
        refine ⟨kg, ?_, by rw [if_neg hkg_len]⟩
        simp only [TheoryEngine.groupCodesIntoCategories]
        rw [hg]
        simp
      rw [hcon] at this
      simp at this

/-- Claim C1 (witness): one concrete code yields a result, the empty code
list yields the named error. -/
theorem buildGroundedTheory_noCategories_iff_witness :
    (∃ r, TheoryEngine.buildGroundedTheory
      [{ name := "single", definition := "one code", examples := [],
         frequency := 1, type := CodeType.constructed }]
      none "Test?" TheoryEngine.Paradigm.constructivist = Except.ok r) ∧
    TheoryEngine.buildGroundedTheory [] none "Test?"
      TheoryEngine.Paradigm.constructivist =
      Except.error TheoryEngine.noCategoriesMessage :=
  ⟨(buildGroundedTheory_noCategories_iff _ none "Test?"
      TheoryEngine.Paradigm.constructivist).2.1
      ((buildGroundedTheory_noCategories_iff _ none "Test?"
        TheoryEngine.Paradigm.constructivist).2.2 (by decide)),
   (buildGroundedTheory_noCategories_iff [] none "Test?"
      TheoryEngine.Paradigm.constructivist).1 rfl⟩

/-- Claim C10 (witness): the lowercase-named code `difficult` is matched to
the Challenges and Barriers framework through the keyword `difficult`. -/
theorem deductiveThemeExtraction_keyword_match_witness :
    ∃ t ∈ ThemeEngine.deductiveThemeExtraction
      [{ name := "difficult", definition := "x", examples := [],
         frequency := 1, type := CodeType.constructed }] "medium",
      t.name = "Challenges and Barriers" ∧
      "difficult" ∈ t.supportingCodes := by
  have h := deductiveThemeExtraction_keyword_match
    [{ name := "difficult", definition := "x", examples := [],
       frequency := 1, type := CodeType.constructed }] "medium"
    { name := "difficult", definition := "x", examples := [],
      frequency := 1, type := CodeType.constructed }
    ("Challenges and Barriers",
      ["difficult", "challenge", "problem", "barrier", "obstacle", "struggle"])
    (by decide) (by decide)
    ⟨"difficult", by decide, Or.inl (by decide)⟩
  simpa using h

/-- A single code always yields exactly one category, whose related codes are
that code's name. -/
theorem identifyCategories_singleton (c : Code) (p : TheoryEngine.Paradigm) :
    ∃ cat : TheoryEngine.Category,
      TheoryEngine.identifyCategories [c] p = [cat] ∧
      cat.relatedCodes = [c.name] :=
  ⟨_, rfl, rfl⟩

/-- Claim C7 (counterexample): the single frequency-1 code named `result-x`
with definition `result of stress, led to harm, caused by x` drives
`buildGroundedTheory` to completeness 63/100, which is not below 3/5, and to
the developing-well first recommendation rather than an incomplete-theory
one. -/
theorem buildGroundedTheory_singleCode_cex :
    ((TheoryEngine.buildGroundedTheory
      [{ name := "result-x",
         definition := "result of stress, led to harm, caused by x",
         examples := [], frequency := 1, type := CodeType.constructed }]
      none "RQ?" TheoryEngine.Paradigm.constructivist).toOption.map
        (fun r => (r.completeness, r.recommendations.head?))) =
      some (63 / 100,
        some "Theory is developing well. Focus on refining relationships between categories.") ∧
    ¬ ((63 : ℚ) / 100 < 3 / 5) :=
  ⟨by decide, by norm_num⟩

/-- Claim C7 (amended): for a single frequency-1 code whose lowercased
definition contains none of the causal/outcome keywords scanned by axial
coding (`because`, `due to`, `caused by`, `result of`, `led to`, `result`,
`outcome`, `caused`, `effect`), `buildGroundedTheory` succeeds with
completeness strictly below 3/5 and the incomplete-theory first
recommendation. -/
theorem buildGroundedTheory_singleCode_low_completeness
    (c : Code) (themes : Option (List ThemeEngine.Theme)) (rq : String)
    (paradigm : TheoryEngine.Paradigm)
    (hfreq : c.frequency = 1)
    (h1 : containsStr (toLowerStr c.definition) "because" = false)
    (h2 : containsStr (toLowerStr c.definition) "due to" = false)
    (h3 : containsStr (toLowerStr c.definition) "caused by" = false)
    (h4 : containsStr (toLowerStr c.definition) "result of" = false)
    (h5 : containsStr (toLowerStr c.definition) "led to" = false)
    (h6 : containsStr (toLowerStr c.definition) "result" = false)
    (h7 : containsStr (toLowerStr c.definition) "outcome" = false)
    (h8 : containsStr (toLowerStr c.definition) "caused" = false)
    (h9 : containsStr (toLowerStr c.definition) "effect" = false) :
    ∃ r, TheoryEngine.buildGroundedTheory [c] themes rq paradigm =
        Except.ok r ∧
      r.completeness < 3 / 5 ∧
      r.recommendations.head? =
        some "Theory is incomplete. Continue data collection and coding to develop more robust categories." := by
  obtain ⟨cat, hcats, hrel⟩ := identifyCategories_singleton c paradigm
  set axe := TheoryEngine.analyzeParadigmModel cat [cat] [c] with haxe
  have hcausalE : TheoryEngine.identifyCausalConditions cat [cat] [c] = [] := by
    simp [TheoryEngine.identifyCausalConditions, h1, h2, h3, h4, h5]
  have hconseq2 : TheoryEngine.identifyConsequences cat [cat] [c] =
      ([cat].filter (fun other =>
        containsStr other.name "outcome" || containsStr other.name "result" ||
          containsStr other.name "consequence" ||
          containsStr other.name "effect")).map (fun o => o.name) := by
    simp [TheoryEngine.identifyConsequences, h5, h6, h7, h8, h9]
  have hconseqLen : (TheoryEngine.identifyConsequences cat [cat] [c]).length ≤ 1 := by
    rw [hconseq2, List.length_map]
    exact List.length_filter_le _ _
  have hstratLen : (TheoryEngine.identifyActionStrategies cat [cat]).length ≤ 1 := by
    rw [TheoryEngine.identifyActionStrategies, List.length_map]
    exact List.length_filter_le _ _
  have hcausalAxe : axe.causalConditions = [] := by rw [haxe]; exact hcausalE
  have hconseqAxe : axe.consequences.length ≤ 1 := by rw [haxe]; exact hconseqLen
  have hstratAxe : axe.actionStrategies.length ≤ 1 := by rw [haxe]; exact hstratLen
  have hfind : List.find? (fun c2 => c2.name == cat.name) [cat] = some cat := by
    simp [List.find?]
  have hfindAx : List.find? (fun ar => ar.phenomenon == cat.name) [axe] =
      some axe := by
    rw [haxe]; simp [List.find?, TheoryEngine.analyzeParadigmModel]
  have hS : 0 < TheoryEngine.categoryScore cat [axe] := by
    simp only [TheoryEngine.categoryScore, hfindAx]
    rw [hrel]
    have h1len : (([c.name] : List String).length : ℚ) = 1 := by simp
    rw [h1len]
    positivity
  have hccE : ∃ cc, TheoryEngine.identifyCoreCategory [cat] [axe] rq =
      Except.ok cc ∧ cc.centrality = 1 ∧ cc.relationships.length ≤ 2 := by
    simp only [TheoryEngine.identifyCoreCategory, List.foldl, mapSet, sortStable,
      insStable, List.map, List.sum_cons, List.sum_nil, add_zero, hfind, hfindAx]
    refine ⟨_, rfl, ?_, ?_⟩
    · simp only [if_pos hS]
      exact div_self (ne_of_gt hS)
    · simp only [List.length_append, List.length_map, hcausalAxe, List.length_nil]
      omega
  obtain ⟨cc, hccEq, hcent, hrellen⟩ := hccE
  have hcomp : TheoryEngine.assessTheoryCompleteness cc [cat] [axe] < 3 / 5 := by
    simp only [TheoryEngine.assessTheoryCompleteness, hcent]
    have hlen1 : (([cat] : List TheoryEngine.Category).length : ℚ) = 1 := by simp
    have hlen2 : (([axe] : List TheoryEngine.AxialCodingResult).length : ℚ) = 1 := by
      simp
    rw [hlen1, hlen2]
    have hminr : min ((cc.relationships.length : ℚ) * 5) 20 ≤ 10 := by
      refine le_trans (min_le_left _ _) ?_
      have hc2 : (cc.relationships.length : ℚ) ≤ 2 := by exact_mod_cast hrellen
      linarith
    have hmin4 : min ((1 : ℚ) * 4) 20 = 4 := by norm_num
    rw [hmin4]
    refine lt_of_le_of_lt (min_le_left _ _) ?_
    rw [div_lt_iff₀ (by norm_num : (0 : ℚ) < 100)]
    linarith
  have hrecs : (TheoryEngine.generateRecommendations
      (TheoryEngine.assessTheoryCompleteness cc [cat] [axe]) cc [cat]).head? =
      some "Theory is incomplete. Continue data collection and coding to develop more robust categories." := by
    simp only [TheoryEngine.generateRecommendations]
    rw [if_pos hcomp]
    rfl
  have haxiEq : TheoryEngine.performAxialCoding [cat] [c] = [axe] := by
    rw [haxe]; rfl
  refine ⟨TheoryEngine.integrateTheory cc [cat] [axe] rq paradigm, ?_, ?_, ?_⟩
  · simp only [TheoryEngine.buildGroundedTheory]
    rw [hcats, haxiEq, hccEq]
  · exact hcomp
  · exact hrecs

/-- Claim C7 (witness): the single code `single` with definition `one code`
and frequency 1 yields completeness below 3/5 and the incomplete-theory first
recommendation. -/
theorem buildGroundedTheory_singleCode_low_completeness_witness :
    ∃ r, TheoryEngine.buildGroundedTheory
      [{ name := "single", definition := "one code", examples := [],
         frequency := 1, type := CodeType.constructed }]
      none "Test?" TheoryEngine.Paradigm.constructivist = Except.ok r ∧
      r.completeness < 3 / 5 ∧
      r.recommendations.head? =
        some "Theory is incomplete. Continue data collection and coding to develop more robust categories." :=
  buildGroundedTheory_singleCode_low_completeness
    { name := "single", definition := "one code", examples := [],
      frequency := 1, type := CodeType.constructed }
    none "Test?" TheoryEngine.Paradigm.constructivist rfl
    (by decide) (by decide) (by decide) (by decide) (by decide)
    (by decide) (by decide) (by decide) (by decide)

end QualAI
